import Mathlib

/-!
Shallow embedding of `src/fantia/fantia.py` (the Fantia plugin of
py-hoordu-plugins).  Python objects become Lean structures; the mutable
ORM session (posts, files, tags, related links) becomes an explicit `DB`
value threaded through every operation; exceptions become
`Except String`.  Remote HTTP fetches are modelled by a pure `World`
(the remote server's contents); issued binary downloads are logged in
`DB.downloads`.  Machine integers do not overflow anywhere in the
source (ids are Python arbitrary-precision ints), so `Nat` is used.
Line numbers in comments refer to `src/fantia/fantia.py`.
-/

set_option maxHeartbeats 1000000

inductive FetchDirection where
  | newer
  | older
  deriving DecidableEq, Repr

inductive PostType where
  | collection
  | set
  | blog
  deriving DecidableEq, Repr

inductive TagCategory where
  | artist
  | general
  | meta
  deriving DecidableEq, Repr

/-- One entry of the re-serialized blog comment (lines 369-372 and 400-403):
either a literal text segment or a reference to a file by its order. -/
inductive BlogSeg where
  | text (content : String)
  | file (order : Nat)
  deriving DecidableEq, Repr

/-- The value stored in a post's comment column: either raw text carried
through from the remote record (creation, lines 279/448) or the serialized
segment list written by the blog branch (line 408).  The JSON serialization
`hoordu.Dynamic(\x7b...\x7d).to_json()` is modelled by the injective
constructor `segs`. -/
inductive CommentVal where
  | raw (s : String)
  | segs (l : List BlogSeg)
  deriving DecidableEq, Repr

structure Plan where
  price : Nat
  deriving DecidableEq, Repr

structure PhotoUrl where
  original : String
  medium : String
  deriving DecidableEq, Repr

/-- One element of `content.post_content_photos` (lines 335-352). -/
structure Photo where
  id : Nat
  url : PhotoUrl
  deriving DecidableEq, Repr

/-- The `fantiaImage` object of a blog insert (lines 375-387). -/
structure FantiaImage where
  id : Nat
  original_url : String
  url : String
  deriving DecidableEq, Repr

/-- One blog section's `insert` (lines 366-374): either a plain string or a
Dynamic object whose `fantiaImage` field may be absent. -/
inductive BlogInsert where
  | str (s : String)
  | obj (fantiaImage : Option FantiaImage)
  deriving DecidableEq, Repr

/-- A sub-content item of a remote record.  The source accesses fields
dynamically depending on `category`; the embedding carries every field.
`ops` is the parsed form of `comment` used by the blog branch
(`hoordu.Dynamic.from_json(content.comment).ops`, line 364). -/
structure ContentItem where
  id : Nat
  category : String
  visible_status : String
  title : Option String
  comment : Option String
  ops : List BlogInsert
  plan : Option Plan
  filename : String
  download_uri : String
  post_content_photos : List Photo
  deriving DecidableEq, Repr

structure Thumb where
  original : String
  medium : String
  deriving DecidableEq, Repr

/-- A fetched remote post, as decoded from the API response (`post`).
`links_next`/`links_previous` model `post.links.next.id` /
`post.links.previous.id` (absent link = `none`). -/
structure RemoteRecord where
  id : Nat
  fanclub_id : Nat
  fanclub_user_name : String
  title : Option String
  comment : Option String
  posted_at : String
  rating : String
  liked : Option Bool
  tags : List String
  post_contents : List ContentItem
  thumb : Option Thumb
  links_next : Option Nat
  links_previous : Option Nat
  deriving DecidableEq, Repr

/-- The remote server, for one creator.  `fetchPost` is the
`POST_GET_URL` endpoint keyed by the id put in the URL (a failed
`raise_for_status` is `none`); `fanclub` is the `FANCLUB_GET_URL`
endpoint returning the ids of `fanclub.recent_posts` (lines 56-63). -/
structure World where
  fetchPost : Nat → Option RemoteRecord
  fanclub : Option (List Nat)

/-- A persisted RemotePost row.  `dbId` is the integer primary key the ORM
assigns (the `remote_post.id` used at lines 313, 427, 503); `original_id`
is the remote identity (line 266). -/
structure RemotePostR where
  dbId : Nat
  source_id : Nat
  original_id : String
  url : String
  title : Option String
  comment : Option CommentVal
  type : PostType
  post_time : String
  favorite : Bool
  metadata_ : Option (Option Nat)
  tags : List (TagCategory × String)
  deriving DecidableEq, Repr

/-- A persisted File row; `postDbId` is the owning post's primary key
(`File(remote=remote_post, ...)`). -/
structure FileR where
  dbId : Nat
  postDbId : Nat
  remote_order : Nat
  filename : Option String
  present : Bool
  thumb_present : Bool
  deriving DecidableEq, Repr

structure TagR where
  category : TagCategory
  name : String
  metadata_ : Option String
  deriving DecidableEq, Repr

/-- The local persisted store: source id, an id counter standing for the
primary keys `flush` assigns, the post/file/tag tables, the Related table
(pairs `(related_to_id, remote_id)`), the log of issued binary downloads,
the subscription feed, and the warning log. -/
structure DB where
  source_id : Nat
  nextId : Nat
  posts : List RemotePostR
  files : List FileR
  tags : List TagR
  related : List (Nat × Nat)
  downloads : List String
  feed : List Nat
  warnings : List String
  deriving DecidableEq, Repr

/-- `POST_FORMAT.format(post_id=...)` (line 19). -/
def post_url_of (pid : Nat) : String :=
  "https://fantia.jp/posts/" ++ toString pid

/-- `'\x7bpost_id\x7d-\x7bcontent_id\x7d'.format(...)` (line 257). -/
def mk_content_id (pid cid : Nat) : String :=
  toString pid ++ "-" ++ toString cid

/-- `FILE_DOWNLOAD_URL.format(download_uri=...)` (line 26). -/
def file_download_url (uri : String) : String :=
  "https://fantia.jp" ++ uri

/-- `session.query(RemotePost).filter(source_id == .., original_id == ..)
.one_or_none()` (lines 266, 439): `none` when no row matches, the row when
exactly one does, and an exception when several do. -/
def one_or_none (db : DB) (oid : String) : Except String (Option RemotePostR) :=
  match db.posts.filter (fun p => p.source_id == db.source_id && p.original_id == oid) with
  | [] => .ok none
  | [p] => .ok (some p)
  | _ => .error "MultipleResultsFound"

/-- Modelled from the spec: `core.get_remote_tag` (hoordu collaborator,
spec section 6) is a get-or-create keyed by `(category, name)`. -/
def get_remote_tag (db : DB) (cat : TagCategory) (name : String) : TagR × DB :=
  match db.tags.find? (fun t => t.category == cat && t.name == name) with
  | some t => (t, db)
  | none =>
    let t : TagR := ⟨cat, name, none⟩
    (t, { db with tags := db.tags ++ [t] })

/-- Mutation of a tag row's metadata (lines 293-296 / 460-463). -/
def set_tag_meta (db : DB) (cat : TagCategory) (name : String) (m : Option String) : DB :=
  { db with tags := db.tags.map (fun t =>
      if t.category == cat && t.name == name then { t with metadata_ := m } else t) }

/-- The tag references a newly created post receives (lines 289-304 and
456-471): the artist tag keyed by the creator id, one general tag per
remote tag name, and the nsfw meta tag for adult rating, in the order
they are appended to `remote_post.tags`. -/
def attach_tag_pairs (post : RemoteRecord) : List (TagCategory × String) :=
  (TagCategory.artist, toString post.fanclub_id) ::
    (post.tags.map (fun t => (TagCategory.general, t)) ++
      (if post.rating == "adult" then [(TagCategory.meta, "nsfw")] else []))

/-- The tag-table side of the same block: get-or-create of the artist tag
with a display-name metadata refresh (lines 290-296 / 457-463), get-or-
create of each general tag, and of the nsfw tag for adult rating. -/
def attach_tags_db (post : RemoteRecord) (db : DB) : DB :=
  let creator_id := toString post.fanclub_id
  let creator_tag := (get_remote_tag db .artist creator_id).1
  let db1 := (get_remote_tag db .artist creator_id).2
  let db2 :=
    if creator_tag.metadata_ == some post.fanclub_user_name then db1
    else set_tag_meta db1 .artist creator_id (some post.fanclub_user_name)
  let db3 := post.tags.foldl (fun d tname => (get_remote_tag d .general tname).2) db2
  if post.rating == "adult" then (get_remote_tag db3 .meta "nsfw").2 else db3

/-- The common tag bookkeeping of both creation paths (lines 289-304 and
456-471).  The source interleaves the appends to `remote_post.tags` with
the tag-table operations, but neither side reads the other, so they are
modelled side by side. -/
def attach_tags (post : RemoteRecord) (rp : RemotePostR) (db : DB) : RemotePostR × DB :=
  ({ rp with tags := rp.tags ++ attach_tag_pairs post }, attach_tags_db post db)

/-- `remote_post.files`: the File rows owned by a post. -/
def files_of (db : DB) (pid : Nat) : List FileR :=
  db.files.filter (fun f => f.postDbId == pid)

/-- Lookup in the `\x7bfile.remote_order: file\x7d` dict comprehension
(lines 333, 362): a Python dict keeps the last entry for a duplicated
key, hence the reversed search. -/
def dict_get (fs : List FileR) (order : Nat) : Option FileR :=
  fs.reverse.find? (fun f => f.remote_order == order)

/-- `File(remote=remote_post, remote_order=.., filename=..)` followed by
`core.add` and `core.flush` (which assigns the primary key). -/
def add_file (db : DB) (pid order : Nat) (fname : Option String) : FileR × DB :=
  let f : FileR := ⟨db.nextId, pid, order, fname, false, false⟩
  (f, { db with nextId := db.nextId + 1, files := db.files ++ [f] })

/-- In-place mutation of a File row. -/
def update_file (db : DB) (fid : Nat) (g : FileR → FileR) : DB :=
  { db with files := db.files.map (fun f => if f.dbId == fid then g f else f) }

/-- In-place mutation of a RemotePost row (the object the Python code
mutates is the session row itself). -/
def update_post (db : DB) (pid : Nat) (g : RemotePostR → RemotePostR) : DB :=
  { db with posts := db.posts.map (fun p => if p.dbId == pid then g p else p) }

/-- `_download_file` (lines 232-254): issues the GET and returns a local
temp path (modelled by the url itself); the issued request is logged. -/
def download_file (db : DB) (url : String) : String × DB :=
  (url, { db with downloads := db.downloads ++ [url] })

/-- Modelled from the spec: hoordu's `core.import_file(file, orig, thumb,
move=True)` (spec sections 4.3 and 6) ingests the given binaries and
records presence atomically; absent arguments leave the flags alone. -/
def import_file (db : DB) (fid : Nat) (orig thumb : Option String) : DB :=
  update_file db fid (fun f =>
    { f with present := f.present || orig.isSome
             thumb_present := f.thumb_present || thumb.isSome })

/-- The asset resolution decision, exactly as computed at lines 317-318,
345-346, 389-390 and 488-489:
`need_orig = not file.present and not preview`,
`need_thumb = not file.thumb_present`. -/
def needs (f : FileR) (preview : Bool) : Bool × Bool :=
  (!f.present && !preview, !f.thumb_present)

/-- The shared download-then-import pattern of the photo-gallery loop
(lines 345-354) and the blog image handling (lines 389-398): when either
flag demands it, fetch the needed binaries (original first) and hand
them to the import pipeline. -/
def two_dl_import (needOrig needThumb : Bool) (origUrl thumbUrl : String)
    (fid : Nat) (db : DB) : DB :=
  if needThumb || needOrig then
    let odb :=
      if needOrig then
        ((some (download_file db origUrl).1 : Option String), (download_file db origUrl).2)
      else (none, db)
    let tdb :=
      if needThumb then
        ((some (download_file odb.2 thumbUrl).1 : Option String), (download_file odb.2 thumbUrl).2)
      else (none, odb.2)
    import_file tdb.2 fid odb.1 tdb.1
  else db

/-- The download-then-import part of the `file` branch (lines 317-330):
the full asset comes from the content's download uri, the thumbnail from
the parent record's thumbnail descriptor when one exists. -/
def file_dl_phase (post : RemoteRecord) (content : ContentItem) (f : FileR)
    (preview : Bool) (db : DB) : DB :=
  let nds := needs f preview
  if nds.1 || nds.2 then
    let odb :=
      if nds.1 then
        ((some (download_file db (file_download_url content.download_uri)).1 : Option String),
          (download_file db (file_download_url content.download_uri)).2)
      else (none, db)
    let tdb :=
      match post.thumb with
      | some th =>
        if nds.2 then
          ((some (download_file odb.2 th.medium).1 : Option String),
            (download_file odb.2 th.medium).2)
        else (none, odb.2)
      | none => (none, odb.2)
    import_file tdb.2 f.dbId odb.1 tdb.1
  else db

/-- The store side of the `content.category == 'file'` branch
(lines 308-330): get-or-create of the single placeholder at order 0,
then the needed downloads and the import. -/
def file_branch_db (post : RemoteRecord) (content : ContentItem) (pid : Nat)
    (preview : Bool) (db : DB) : DB :=
  let fdb :=
    match files_of db pid with
    | [] => add_file db pid 0 (some content.filename)
    | f :: _ => (f, db)
  file_dl_phase post content fdb.1 preview fdb.2

/-- The `content.category == 'file'` branch (lines 308-330); the post
object itself is not modified by it. -/
def file_branch (post : RemoteRecord) (content : ContentItem) (rp : RemotePostR)
    (preview : Bool) (db : DB) : RemotePostR × DB :=
  (rp, file_branch_db post content rp.dbId preview db)

/-- One iteration of the photo loop (lines 335-354): look the order up
in the pre-loop snapshot, create the placeholder if absent, then the
needed downloads and the import. -/
def gallery_step (preview : Bool) (rpDbId : Nat) (current : List FileR)
    (db : DB) (photo : Photo) : DB :=
  let fdb :=
    match dict_get current photo.id with
    | none => add_file db rpDbId photo.id none
    | some f => (f, db)
  two_dl_import (needs fdb.1 preview).1 (needs fdb.1 preview).2
    photo.url.original photo.url.medium fdb.1.dbId fdb.2

/-- The `content.category == 'photo_gallery'` branch (lines 332-354); the
`current_files` dict is a snapshot taken before the loop. -/
def gallery_branch (content : ContentItem) (rp : RemotePostR) (preview : Bool)
    (db : DB) : RemotePostR × DB :=
  let current := files_of db rp.dbId
  (rp, content.post_content_photos.foldl (gallery_step preview rp.dbId current) db)

/-- The `content.category == 'text'` branch (lines 356-359). -/
def text_branch (rp : RemotePostR) (db : DB) : RemotePostR × DB :=
  ({ rp with type := PostType.set },
   update_post db rp.dbId (fun p => { p with type := PostType.set }))

/-- The store side of one inline-image blog insert (lines 377-398):
look the image id up in the pre-loop snapshot, create the placeholder if
absent, then the needed downloads (full asset from the absolute
download uri, thumbnail from `fantiaImage.url`) and the import. -/
def blog_img_db (preview : Bool) (rpDbId : Nat) (current : List FileR)
    (img : FantiaImage) (db : DB) : DB :=
  let fdb :=
    match dict_get current img.id with
    | none => add_file db rpDbId img.id none
    | some f => (f, db)
  two_dl_import (needs fdb.1 preview).1 (needs fdb.1 preview).2
    (file_download_url img.original_url) img.url fdb.1.dbId fdb.2

/-- One blog section (lines 366-406): a string insert becomes a text
segment, a Dynamic insert with a `fantiaImage` becomes a file segment
(creating/fetching its placeholder), and any other Dynamic insert is
logged (a warning) and dropped. -/
def blog_step (preview : Bool) (rpDbId : Nat) (current : List FileR)
    (acc : List BlogSeg × DB) (sec : BlogInsert) : List BlogSeg × DB :=
  match sec with
  | .str s => (acc.1 ++ [BlogSeg.text s], acc.2)
  | .obj none =>
    (acc.1, { acc.2 with warnings := acc.2.warnings ++ ["unknown blog insert"] })
  | .obj (some img) =>
    (acc.1 ++ [BlogSeg.file img.id], blog_img_db preview rpDbId current img acc.2)

/-- The segment sequence the blog loop produces, mirroring the input
order: string inserts become text segments, recognized image inserts
become file segments, anything else is dropped. -/
def blog_segs_of : List BlogInsert → List BlogSeg :=
  List.filterMap (fun sec =>
    match sec with
    | .str s => some (BlogSeg.text s)
    | .obj (some img) => some (BlogSeg.file img.id)
    | .obj none => none)

/-- The `content.category == 'blog'` branch (lines 361-410). -/
def blog_branch (content : ContentItem) (rp : RemotePostR) (preview : Bool)
    (db : DB) : RemotePostR × DB :=
  let current := files_of db rp.dbId
  let s := content.ops.foldl (blog_step preview rp.dbId current) ([], db)
  ({ rp with comment := some (CommentVal.segs s.1), type := PostType.blog },
   update_post s.2 rp.dbId (fun p =>
     { p with comment := some (CommentVal.segs s.1), type := PostType.blog }))

/-- The category dispatch of `_content_to_post` (lines 308-413); an
unrecognized category raises `ValueError` (line 413). -/
def content_dispatch (post : RemoteRecord) (content : ContentItem) (rp : RemotePostR)
    (preview : Bool) (db : DB) : Except String (RemotePostR × DB) :=
  if content.category == "file" then .ok (file_branch post content rp preview db)
  else if content.category == "photo_gallery" then .ok (gallery_branch content rp preview db)
  else if content.category == "text" then .ok (text_branch rp db)
  else if content.category == "blog" then .ok (blog_branch content rp preview db)
  else .error ("ValueError: unknown content category: " ++ content.category)

/-- Creation of a sub-content post (lines 269-306). -/
def create_content_post (post : RemoteRecord) (content : ContentItem) (db : DB) :
    RemotePostR × DB :=
  let rp : RemotePostR :=
    { dbId := db.nextId
      source_id := db.source_id
      original_id := mk_content_id post.id content.id
      url := post_url_of post.id
      title := content.title
      comment := content.comment.map CommentVal.raw
      type := PostType.collection
      post_time := post.posted_at
      favorite := post.liked == some true
      metadata_ := some (content.plan.map (·.price))
      tags := [] }
  let s := attach_tags post rp { db with nextId := db.nextId + 1 }
  (s.1, { s.2 with posts := s.2.posts ++ [s.1] })

/-- `_content_to_post` (lines 256-415).  `post_time` conversion
(`dateutil` parse to UTC) is modelled as carrying the timestamp string. -/
def content_to_post (post : RemoteRecord) (content : ContentItem)
    (rpIn : Option RemotePostR) (preview : Bool) (db : DB) :
    Except String (RemotePostR × DB) :=
  match rpIn with
  | some rp => content_dispatch post content rp preview db
  | none =>
    match one_or_none db (mk_content_id post.id content.id) with
    | .error e => .error e
    | .ok (some rp) => content_dispatch post content rp preview db
    | .ok none =>
      let s := create_content_post post content db
      content_dispatch post content s.1 preview s.2

/-- Creation of the collection post of a record (lines 441-474). -/
def create_main_post (post : RemoteRecord) (db : DB) : RemotePostR × DB :=
  let rp : RemotePostR :=
    { dbId := db.nextId
      source_id := db.source_id
      original_id := toString post.id
      url := post_url_of post.id
      title := post.title
      comment := post.comment.map CommentVal.raw
      type := PostType.collection
      post_time := post.posted_at
      favorite := post.liked == some true
      metadata_ := none
      tags := [] }
  let s := attach_tags post rp { db with nextId := db.nextId + 1 }
  (s.1, { s.2 with posts := s.2.posts ++ [s.1] })

/-- Lookup-or-create of the collection post of a record (lines 438-474). -/
def ensure_main_post (post : RemoteRecord) (db : DB) : Except String (RemotePostR × DB) :=
  match one_or_none db (toString post.id) with
  | .error e => .error e
  | .ok (some rp) => .ok (rp, db)
  | .ok none => .ok (create_main_post post db)

/-- The download/import part of the collection post's thumbnail handling
(lines 487-494).  Lines 492/493 read `post.thumb.original` /
`post.thumb.medium` without a None guard: with a needed download and a
missing thumbnail descriptor this raises `AttributeError`. -/
def main_thumb_dl (post : RemoteRecord) (f : FileR) (preview : Bool)
    (db : DB) : Except String DB :=
  let nds := needs f preview
  if nds.1 || nds.2 then
    let origE : Except String (Option String × DB) :=
      if nds.1 then
        match post.thumb with
        | none => .error "AttributeError: NoneType object has no attribute original"
        | some th =>
          .ok (some (download_file db th.original).1, (download_file db th.original).2)
      else .ok (none, db)
    match origE with
    | .error e => .error e
    | .ok odb =>
      let thumbE : Except String (Option String × DB) :=
        if nds.2 then
          match post.thumb with
          | none => .error "AttributeError: NoneType object has no attribute medium"
          | some th =>
            .ok (some (download_file odb.2 th.medium).1, (download_file odb.2 th.medium).2)
        else .ok (none, odb.2)
      match thumbE with
      | .error e => .error e
      | .ok tdb => .ok (import_file tdb.2 f.dbId odb.1 tdb.1)
  else .ok db

/-- The collection post's thumbnail handling (lines 476-494): at most one
placeholder at order 0, created only when the record has a thumbnail
descriptor and the post owns no file yet. -/
def main_thumb_step (post : RemoteRecord) (rp : RemotePostR) (preview : Bool)
    (db : DB) : Except String DB :=
  let fdb : Option FileR × DB :=
    match files_of db rp.dbId with
    | [] =>
      match post.thumb with
      | some _ => (some (add_file db rp.dbId 0 none).1, (add_file db rp.dbId 0 none).2)
      | none => (none, db)
    | f :: _ => (some f, db)
  match fdb.1 with
  | none => .ok fdb.2
  | some f => main_thumb_dl post f preview fdb.2

/-- The sub-content decomposition loop (lines 496-506): each visible
content item is normalized and a Related link from the collection post is
ensured (idempotently, lines 503-505). -/
def contents_loop (post : RemoteRecord) (preview : Bool) (parentDbId : Nat) :
    List ContentItem → DB → Except String (List RemotePostR × DB)
  | [], db => .ok ([], db)
  | c :: cs, db =>
    if c.visible_status == "visible" then
      match content_to_post post c none preview db with
      | .error e => .error e
      | .ok (cp, db) =>
        let db :=
          if (parentDbId, cp.dbId) ∈ db.related then db
          else { db with related := db.related ++ [(parentDbId, cp.dbId)] }
        match contents_loop post preview parentDbId cs db with
        | .error e => .error e
        | .ok (rest, db) => .ok (cp :: rest, db)
    else contents_loop post preview parentDbId cs db

/-- `_to_remote_posts` (lines 417-507).  When an anchor post is passed,
line 427 evaluates `remote_post.id.split('-')`: `remote_post.id` is the
integer database primary key (compare line 503, where it is matched
against `Related.related_to_id`, and line 526, where `original_id` is
used instead for the remote identity), and an int has no `split`, so the
call raises before anything else happens. -/
def to_remote_posts (post : RemoteRecord) (rpIn : Option RemotePostR)
    (preview : Bool) (db : DB) : Except String (List RemotePostR × DB) :=
  match rpIn with
  | some _ => .error "AttributeError: int object has no attribute split"
  | none =>
    match ensure_main_post post db with
    | .error e => .error e
    | .ok (rp, db) =>
      match main_thumb_step post rp preview db with
      | .error e => .error e
      | .ok db =>
        match contents_loop post preview rp.dbId post.post_contents db with
        | .error e => .error e
        | .ok (rest, db) => .ok (rp :: rest, db)

/-- Python `str.isdigit` restricted to ASCII digits, as used at lines
217 and 531. -/
def py_isdigit (s : String) : Bool :=
  !s.data.isEmpty && s.data.all Char.isDigit

/-- Longest digit run at the head of the character list (`(?P<id>\d+)`
is greedy, and no shorter capture can make the rest match since the
tail may not resume with a digit). -/
def span_digits : List Char → List Char × List Char
  | [] => ([], [])
  | c :: cs =>
    if c.isDigit then
      let (d, r) := span_digits cs
      (c :: d, r)
    else ([], c :: cs)

/-- Whether the remainder after the captured id matches the trailing
part of POST_REGEXP / FANCLUB_REGEXP followed by `$`: the optional
groups start with one of `allowed`, `.` never matches a newline, and
Python's `$` also matches just before one trailing newline. -/
def url_tail_ok (allowed : List Char) (t : List Char) : Bool :=
  match t with
  | [] => true
  | _ =>
    let t2 := if t.getLast? == some '\n' then t.dropLast else t
    match t2 with
    | [] => true
    | c :: rest => allowed.contains c && rest.all (fun x => x ≠ '\n')

/-- Drops the given character-list prefix, if present. -/
def strip_start : List Char → List Char → Option (List Char)
  | [], s => some s
  | _ :: _, [] => none
  | a :: ps, b :: ss => if a = b then strip_start ps ss else none

/-- Strips `^https?:\/\/fantia\.jp\/` plus the given path segment
(the regex alternation `https?` tries the `s` first). -/
def after_start (url seg : String) : Option (List Char) :=
  match strip_start ("https://fantia.jp/" ++ seg).data url.data with
  | some r => some r
  | none => strip_start ("http://fantia.jp/" ++ seg).data url.data

/-- `POST_REGEXP.match(url)` returning the `post_id` group (line 20). -/
def match_post_url (url : String) : Option String :=
  match after_start url "posts/" with
  | none => none
  | some rest =>
    let (ds, t) := span_digits rest
    if !ds.isEmpty && url_tail_ok ['?', '#'] t then some (String.mk ds) else none

/-- `FANCLUB_REGEXP.match(url)` returning the `fanclub_id` group (line 21). -/
def match_fanclub_url (url : String) : Option String :=
  match after_start url "fanclubs/" with
  | none => none
  | some rest =>
    let (ds, t) := span_digits rest
    if !ds.isEmpty && url_tail_ok ['/', '?', '#'] t then some (String.mk ds) else none

inductive ParseResult where
  | postId (id : String)
  | search (creator_id : String)
  deriving DecidableEq, Repr

/-- `parse_url` (lines 207-230).  The final `return post_id` (line 230)
refers to a name that is bound nowhere in the function, so reaching it
raises `NameError` instead of returning the `None` promised by the
docstring. -/
def parse_url (url : String) : Except String ParseResult :=
  if py_isdigit url then .ok (.postId url)
  else
    match match_post_url url with
    | some pid => .ok (.postId pid)
    | none =>
      match match_fanclub_url url with
      | some fid => .ok (.search fid)
      | none => .error "NameError: name post_id is not defined"

/-- `download` (lines 509-550). -/
def download (w : World) (url : Option String) (rpIn : Option RemotePostR)
    (preview : Bool) (db : DB) : Except String (Option RemotePostR × DB) :=
  match url, rpIn with
  | none, none => .error "ValueError: either url or remote_post must be passed"
  | _, _ =>
    let pidE : Except String String :=
      match rpIn with
      | some rp => .ok ((rp.original_id.splitOn "-").headD "")
      | none =>
        match url with
        | some u =>
          if py_isdigit u then .ok u
          else
            match match_post_url u with
            | some pid => .ok pid
            | none => .error ("ValueError: unsupported url: " ++ u)
        | none => .error "unreachable"
    match pidE with
    | .error e => .error e
    | .ok pid =>
      match pid.toNat? with
      | none => .error "HTTPError"
      | some n =>
        match w.fetchPost n with
        | none => .error "HTTPError"
        | some post =>
          match to_remote_posts post rpIn preview db with
          | .error e => .error e
          | .ok (ps, db) => .ok (ps.head?, db)

/-- The result of one `_post_iterator` run: the yielded records, the
in-memory cursor at the end, the post ids fetched by the bounded loop
(line 83; the at-most-one seeding/probe fetch of lines 56/71 is not
part of the loop), and the pending exception, if any, that interrupted
the run.  Records listed in `records` were all yielded (and handed to
the caller) before the error occurred. -/
structure IterResult where
  records : List RemoteRecord
  head : Option Nat
  tail : Option Nat
  fetched : List Nat
  err : Option String
  deriving DecidableEq, Repr

/-- `post.links.next` / `post.links.previous` depending on direction
(lines 75, 95). -/
def dir_link (d : FetchDirection) (p : RemoteRecord) : Option Nat :=
  match d with
  | .newer => p.links_next
  | .older => p.links_previous

/-- The main loop of `_post_iterator` (lines 81-99).  The fuel is the
limit `n` when one was given (`range(n)`); when `n` is `None` the Python
loop is unbounded (`iter(int, 1)`) and the fuel is an arbitrary bound on
the number of iterations observed. -/
def post_loop (w : World) (d : FetchDirection) :
    Nat → Nat → Option Nat → Option Nat → IterResult
  | 0, _, h, t => ⟨[], h, t, [], none⟩
  | fuel + 1, pid, h, t =>
    match w.fetchPost pid with
    | none => ⟨[], h, t, [pid], some "HTTPError"⟩
    | some post =>
      let h2 := if d == FetchDirection.newer then some pid else h
      let t2 := if d == FetchDirection.older then some pid else t
      match dir_link d post with
      | none => ⟨[post], h2, t2, [pid], none⟩
      | some nid =>
        let r := post_loop w d fuel nid h2 t2
        ⟨post :: r.records, r.head, r.tail, pid :: r.fetched, r.err⟩

/-- `_post_iterator` (lines 52-99): pick the cursor for the direction;
when absent, seed both cursors from the creator's most recent post and
start the loop there; otherwise probe the cursored record and start the
loop at its link (terminating at once when the link is absent). -/
def post_iterator (w : World) (d : FetchDirection) (fuel : Nat)
    (head tail : Option Nat) : IterResult :=
  let pid0 := if d == FetchDirection.newer then head else tail
  match pid0 with
  | none =>
    match w.fanclub with
    | none => ⟨[], head, tail, [], some "HTTPError"⟩
    | some recent =>
      match recent with
      | [] => ⟨[], head, tail, [], none⟩
      | pid :: _ => post_loop w d fuel pid (some pid) (some pid)
  | some pid =>
    match w.fetchPost pid with
    | none => ⟨[], head, tail, [], some "HTTPError"⟩
    | some post =>
      match dir_link d post with
      | none => ⟨[], head, tail, [], none⟩
      | some nid => post_loop w d fuel nid head tail

/-- The record-processing loop of `fetch` (lines 115-127): each record is
normalized, its posts are yielded (and appended to the subscription feed
when running under a subscription) and the transaction is committed;
an exception stops the loop, keeping what was already committed. -/
def fetch_loop (subscribed : Bool) :
    List RemoteRecord → DB → List RemotePostR × DB × Option String
  | [], db => ([], db, none)
  | r :: rs, db =>
    match to_remote_posts r none (!subscribed) db with
    | .error e => ([], db, some e)
    | .ok (ps, db) =>
      let db := if subscribed then { db with feed := db.feed ++ ps.map (·.dbId) } else db
      let (rest, db, err) := fetch_loop subscribed rs db
      (ps ++ rest, db, err)

/-- The final outcome of `fetch`: the normalized posts yielded, the
committed store, the persisted cursor (written by `_save_state` only
when the run completed without an exception) and the pending error. -/
structure FetchResult where
  yielded : List RemotePostR
  db : DB
  head : Option Nat
  tail : Option Nat
  err : Option String
  deriving DecidableEq, Repr

/-- `fetch` (lines 101-131): the direction is forced to `older` when no
tail cursor exists (lines 112-113), the paginator is drained, each record
is processed and committed, and `_save_state` persists the cursor only
after a clean run. -/
def fetch (w : World) (subscribed : Bool) (d : FetchDirection) (fuel : Nat)
    (head tail : Option Nat) (db : DB) : FetchResult :=
  let d2 := if tail == none then FetchDirection.older else d
  let it := post_iterator w d2 fuel head tail
  let (ys, db2, perr) := fetch_loop subscribed it.records db
  match perr with
  | some e => ⟨ys, db2, head, tail, some e⟩
  | none =>
    match it.err with
    | some e => ⟨ys, db2, head, tail, some e⟩
    | none => ⟨ys, db2, it.head, it.tail, none⟩

/-! Identity projections of the store, used to state the idempotence
property: a run may mutate rows in place (types, comments, presence
flags) and append new rows, but never changes a row's identity. -/

/-- Primary key plus `(source_id, original_id)` of each post row. -/
def post_sig (db : DB) : List (Nat × Nat × String) :=
  db.posts.map (fun p => (p.dbId, p.source_id, p.original_id))

/-- Primary key plus `(postDbId, remote_order)` of each file row. -/
def file_sig (db : DB) : List (Nat × Nat × Nat) :=
  db.files.map (fun f => (f.dbId, f.postDbId, f.remote_order))

/-- The `(source_id, original_id)` identity of each post row. -/
def post_keys (db : DB) : List (Nat × String) :=
  db.posts.map (fun p => (p.source_id, p.original_id))

/-- The `(owning post, remote_order)` identity of each file row. -/
def file_keys (db : DB) : List (Nat × Nat) :=
  db.files.map (fun f => (f.postDbId, f.remote_order))

/-- `a` is `b` with possibly some rows appended (and rows mutated only
in identity-preserving ways). -/
def sig_ext (a b : DB) : Prop :=
  a.source_id = b.source_id ∧ (∃ e, post_sig a = post_sig b ++ e) ∧
    (∃ e, file_sig a = file_sig b ++ e)

/-- The file placeholders the store must already hold, for the post row
`pid`, so that re-normalizing the content item `c` creates nothing. -/
def content_files_cov (db : DB) (pid : Nat) (c : ContentItem) : Prop :=
  (c.category = "file" → ∃ x ∈ file_sig db, x.2.1 = pid) ∧
  (c.category = "photo_gallery" →
    ∀ ph ∈ c.post_content_photos, ∃ x ∈ file_sig db, x.2.1 = pid ∧ x.2.2 = ph.id) ∧
  (c.category = "blog" →
    ∀ img : FantiaImage, BlogInsert.obj (some img) ∈ c.ops →
      ∃ x ∈ file_sig db, x.2.1 = pid ∧ x.2.2 = img.id)

/-- The store already holds a row for the sub-content post of `c`, with
all the file placeholders its category requires. -/
def covers_content (db : DB) (post : RemoteRecord) (c : ContentItem) : Prop :=
  ∃ pid, (pid, db.source_id, mk_content_id post.id c.id) ∈ post_sig db ∧
    content_files_cov db pid c

/-- The store already holds the collection post row of the record, with
its thumbnail placeholder when the record has a thumbnail descriptor. -/
def covers_main (db : DB) (post : RemoteRecord) : Prop :=
  ∃ pid, (pid, db.source_id, toString post.id) ∈ post_sig db ∧
    (post.thumb.isSome = true → ∃ x ∈ file_sig db, x.2.1 = pid)

/-! ## Generic helpers -/

theorem foldl_inv {α β : Type} (f : α → β → α) (Q : α → Prop)
    (hf : ∀ a b, Q a → Q (f a b)) :
    ∀ (l : List β) (a : α), Q a → Q (l.foldl f a) := by
  intro l
  induction l with
  | nil => intro a h; exact h
  | cons x xs ih => intro a h; exact ih _ (hf a x h)

/-! ## C2: the asset resolution decision -/

/-- C2: for every file placeholder and preview flag, the original is
needed iff the original-present flag is false and preview is false, the
thumbnail is needed iff the thumbnail-present flag is false; the original
is never needed when preview is true, and the thumbnail decision does not
depend on preview. -/
theorem needs_policy (f : FileR) (preview : Bool) :
    ((needs f preview).1 = true ↔ (f.present = false ∧ preview = false)) ∧
    ((needs f preview).2 = true ↔ f.thumb_present = false) ∧
    (needs f true).1 = false ∧
    (needs f true).2 = (needs f false).2 := by
  obtain ⟨d, pd, ro, fn, pr, tp⟩ := f
  cases pr <;> cases tp <;> cases preview <;> simp [needs]

/-! ## C3: the anchored update path -/

/-- C3 (divergence witness): for every anchor post passed to
`_to_remote_posts`, the function raises `AttributeError` at line 427
(it splits `remote_post.id`, the integer database key, instead of
`remote_post.original_id`), so an existing sub-content post is never
returned unchanged. -/
theorem to_remote_posts_anchor_raises (post : RemoteRecord) (rp : RemotePostR)
    (preview : Bool) (db : DB) :
    to_remote_posts post (some rp) preview db
      = .error "AttributeError: int object has no attribute split" := rfl

/-! ## C4: unsupported inputs to parse_url -/

/-- C4 (divergence witness): on every input that is not a bare digit
string and matches neither URL pattern, `parse_url` raises `NameError`
(line 230 returns the unbound name `post_id`) instead of returning the
`None` promised by its docstring. -/
theorem parse_url_unsupported_raises (url : String)
    (h1 : py_isdigit url = false)
    (h2 : match_post_url url = none)
    (h3 : match_fanclub_url url = none) :
    parse_url url = .error "NameError: name post_id is not defined" := by
  simp [parse_url, h1, h2, h3]

theorem parse_url_unsupported_raises_witness :
    py_isdigit "nope" = false ∧ match_post_url "nope" = none ∧
    match_fanclub_url "nope" = none ∧
    parse_url "nope" = .error "NameError: name post_id is not defined" :=
  ⟨by decide, by decide, by decide,
    parse_url_unsupported_raises "nope" (by decide) (by decide) (by decide)⟩

/-! ## C10: download with neither url nor remote_post -/

/-- C10: calling `download` with both `url` and `remote_post` absent
raises `ValueError` at once (lines 522-523); the result does not depend
on the remote world or the store, and no fetch or state field is
touched. -/
theorem download_without_input_raises (w : World) (preview : Bool) (db : DB) :
    download w none none preview db
      = .error "ValueError: either url or remote_post must be passed" := rfl

/-! ## C8: direction forcing on bootstrap -/

/-- C8: when no tail cursor exists, `fetch` with direction `newer` is the
same computation as `fetch` with direction `older` (lines 112-113 force
the direction before pagination starts): same yielded sequence, same
store, same final cursor state. -/
theorem fetch_direction_forced_on_bootstrap (w : World) (subscribed : Bool)
    (fuel : Nat) (head : Option Nat) (db : DB) :
    fetch w subscribed FetchDirection.newer fuel head none db
      = fetch w subscribed FetchDirection.older fuel head none db := rfl

/-! ## C7: the record-count limit -/

theorem post_loop_le (w : World) (d : FetchDirection) :
    ∀ fuel pid h t, (post_loop w d fuel pid h t).records.length ≤ fuel ∧
      (post_loop w d fuel pid h t).fetched.length ≤ fuel := by
  intro fuel
  induction fuel with
  | zero => intro pid h t; simp [post_loop]
  | succ n ih =>
    intro pid h t
    cases hw : w.fetchPost pid with
    | none => simp [post_loop, hw]
    | some post =>
      cases hl : dir_link d post with
      | none => simp [post_loop, hw, hl]
      | some nid =>
        have h2 := ih nid (if d == FetchDirection.newer then some pid else h)
          (if d == FetchDirection.older then some pid else t)
        simp only [post_loop, hw, hl]
        constructor
        · simpa using Nat.succ_le_succ h2.1
        · simpa using Nat.succ_le_succ h2.2

/-- C7: with a record-count limit `n`, one paginator run yields at most
`n` records and its stepping loop issues at most `n` fetches — after the
n-th yielded record no further pagination step is issued. -/
theorem post_iterator_respects_limit (w : World) (d : FetchDirection) (n : Nat)
    (head tail : Option Nat) :
    (post_iterator w d n head tail).records.length ≤ n ∧
    (post_iterator w d n head tail).fetched.length ≤ n := by
  unfold post_iterator
  cases hp : (if d == FetchDirection.newer then head else tail) with
  | none =>
    dsimp only
    cases hf : w.fanclub with
    | none => simp [hf]
    | some recent =>
      cases recent with
      | nil => simp [hf]
      | cons pid rest => simpa [hf] using post_loop_le w d n pid (some pid) (some pid)
  | some pid =>
    dsimp only
    cases hw : w.fetchPost pid with
    | none => simp [hw]
    | some post =>
      cases hl : dir_link d post with
      | none => simp [hw, hl]
      | some nid => simpa [hw, hl] using post_loop_le w d n nid head tail

/-! ## C6: an absent link terminates pagination -/

theorem post_loop_absent_link (w : World) (d : FetchDirection) :
    ∀ fuel pid h t r, r ∈ (post_loop w d fuel pid h t).records →
      dir_link d r = none →
      (post_loop w d fuel pid h t).records.getLast? = some r ∧
      ∀ extra, post_loop w d (fuel + extra) pid h t = post_loop w d fuel pid h t := by
  intro fuel
  induction fuel with
  | zero =>
    intro pid h t r hr
    simp [post_loop] at hr
  | succ n ih =>
    intro pid h t r hr hl
    cases hw : w.fetchPost pid with
    | none => simp [post_loop, hw] at hr
    | some post =>
      cases hpl : dir_link d post with
      | none =>
        simp only [post_loop, hw, hpl] at hr ⊢
        simp only [List.mem_singleton] at hr
        subst hr
        refine ⟨rfl, ?_⟩
        intro extra
        have hfe : n + 1 + extra = (n + extra) + 1 := by omega
        rw [hfe]
        simp [post_loop, hw, hpl]
      | some nid =>
        simp only [post_loop, hw, hpl, List.mem_cons] at hr
        rcases hr with hr | hr
        · subst hr; rw [hl] at hpl; cases hpl
        · have hrec := ih nid (if d == FetchDirection.newer then some pid else h)
            (if d == FetchDirection.older then some pid else t) r hr hl
          constructor
          · simp only [post_loop, hw, hpl]
            cases hrl : (post_loop w d n nid
                (if d == FetchDirection.newer then some pid else h)
                (if d == FetchDirection.older then some pid else t)).records with
            | nil => rw [hrl] at hrec; simp at hrec
            | cons b bs =>
              rw [hrl] at hrec
              rw [List.getLast?_cons_cons]
              exact hrec.1
          · intro extra
            have hfe : n + 1 + extra = (n + extra) + 1 := by omega
            rw [hfe]
            simp only [post_loop, hw, hpl]
            rw [hrec.2 extra]

/-- C6: for every direction and every fuel bound (the limit `n` when one
was given, an arbitrary iteration bound when `n` was absent), a yielded
record whose link for the walking direction is absent is the last record
of the run, and allowing any amount of further fuel changes nothing: no
further record is fetched or yielded. -/
theorem post_iterator_absent_link_terminates (w : World) (d : FetchDirection)
    (fuel : Nat) (head tail : Option Nat) (r : RemoteRecord)
    (hmem : r ∈ (post_iterator w d fuel head tail).records)
    (hlink : dir_link d r = none) :
    (post_iterator w d fuel head tail).records.getLast? = some r ∧
    ∀ extra, post_iterator w d (fuel + extra) head tail
      = post_iterator w d fuel head tail := by
  unfold post_iterator at hmem ⊢
  cases hp : (if d == FetchDirection.newer then head else tail) with
  | none =>
    rw [hp] at hmem
    dsimp only at hmem ⊢
    cases hf : w.fanclub with
    | none => simp only [hf] at hmem; simp at hmem
    | some recent =>
      simp only [hf] at hmem ⊢
      try dsimp only at hmem ⊢
      cases recent with
      | nil => simp at hmem
      | cons pid rest =>
        try dsimp only at hmem ⊢
        exact post_loop_absent_link w d fuel pid (some pid) (some pid) r hmem hlink
  | some pid =>
    rw [hp] at hmem
    dsimp only at hmem ⊢
    cases hw : w.fetchPost pid with
    | none => simp only [hw] at hmem; simp at hmem
    | some post =>
      simp only [hw] at hmem ⊢
      try dsimp only at hmem ⊢
      cases hl : dir_link d post with
      | none => simp only [hl] at hmem; simp at hmem
      | some nid =>
        simp only [hl] at hmem ⊢
        try dsimp only at hmem ⊢
        exact post_loop_absent_link w d fuel nid head tail r hmem hlink

def c6_record : RemoteRecord :=
  ⟨1, 9, "creator", none, none, "2020-01-01T00:00:00", "general", none, [], [],
    none, none, none⟩

def c6_world : World :=
  ⟨fun i => if i == 1 then some c6_record else none, some [1]⟩

theorem post_iterator_absent_link_terminates_witness :
    c6_record ∈ (post_iterator c6_world FetchDirection.older 5 none none).records ∧
    dir_link FetchDirection.older c6_record = none ∧
    (post_iterator c6_world FetchDirection.older 5 none none).records.getLast?
      = some c6_record ∧
    post_iterator c6_world FetchDirection.older (5 + 3) none none
      = post_iterator c6_world FetchDirection.older 5 none none := by
  have h := post_iterator_absent_link_terminates c6_world FetchDirection.older 5
    none none c6_record (by decide) (by decide)
  exact ⟨by decide, by decide, h.1, h.2 3⟩

/-! ## Structural facts about the store operations -/

/-- The parts of the store the tag bookkeeping never touches. -/
def same_core (a b : DB) : Prop :=
  a.source_id = b.source_id ∧ a.nextId = b.nextId ∧ a.posts = b.posts ∧
  a.files = b.files ∧ a.related = b.related

theorem same_core_refl (a : DB) : same_core a a := ⟨rfl, rfl, rfl, rfl, rfl⟩

theorem same_core_trans {a b c : DB} (h1 : same_core a b) (h2 : same_core b c) :
    same_core a c :=
  ⟨h1.1.trans h2.1, h1.2.1.trans h2.2.1, h1.2.2.1.trans h2.2.2.1,
   h1.2.2.2.1.trans h2.2.2.2.1, h1.2.2.2.2.trans h2.2.2.2.2⟩

theorem get_remote_tag_core (db : DB) (cat : TagCategory) (name : String) :
    same_core (get_remote_tag db cat name).2 db := by
  unfold get_remote_tag
  cases h : db.tags.find? (fun t => t.category == cat && t.name == name) <;>
    exact ⟨rfl, rfl, rfl, rfl, rfl⟩

theorem set_tag_meta_core (db : DB) (cat : TagCategory) (name : String)
    (m : Option String) : same_core (set_tag_meta db cat name m) db :=
  ⟨rfl, rfl, rfl, rfl, rfl⟩

theorem attach_tags_db_core (post : RemoteRecord) (db : DB) :
    same_core (attach_tags_db post db) db := by
  unfold attach_tags_db
  have h2 : same_core
      (if (get_remote_tag db TagCategory.artist (toString post.fanclub_id)).1.metadata_
          == some post.fanclub_user_name then
        (get_remote_tag db TagCategory.artist (toString post.fanclub_id)).2
      else
        set_tag_meta (get_remote_tag db TagCategory.artist (toString post.fanclub_id)).2
          TagCategory.artist (toString post.fanclub_id) (some post.fanclub_user_name)) db := by
    split
    · exact get_remote_tag_core db _ _
    · exact same_core_trans (set_tag_meta_core _ _ _ _) (get_remote_tag_core db _ _)
  have h3 := foldl_inv (fun d tname => (get_remote_tag d TagCategory.general tname).2)
    (fun a => same_core a db)
    (fun a b ha => same_core_trans (get_remote_tag_core a TagCategory.general b) ha)
    post.tags _ h2
  dsimp only
  split
  · exact same_core_trans (get_remote_tag_core _ _ _) h3
  · exact h3

theorem one_or_none_some_spec (db : DB) (oid : String) (p : RemotePostR)
    (h : one_or_none db oid = .ok (some p)) :
    p ∈ db.posts ∧ p.source_id = db.source_id ∧ p.original_id = oid := by
  unfold one_or_none at h
  cases hf : db.posts.filter (fun q => q.source_id == db.source_id && q.original_id == oid) with
  | nil => rw [hf] at h; simp at h
  | cons a l =>
    cases l with
    | nil =>
      rw [hf] at h
      simp only [Except.ok.injEq, Option.some.injEq] at h
      have ha : a ∈ db.posts.filter
          (fun q => q.source_id == db.source_id && q.original_id == oid) := by
        rw [hf]; exact List.mem_singleton_self a
      have hm := List.mem_filter.mp ha
      have hp := hm.2
      simp only [Bool.and_eq_true, beq_iff_eq] at hp
      rw [← h]
      exact ⟨hm.1, hp.1, hp.2⟩
    | cons b l2 => rw [hf] at h; simp at h

theorem create_content_post_props (post : RemoteRecord) (c : ContentItem) (db : DB) :
    (create_content_post post c db).1.original_id = mk_content_id post.id c.id ∧
    (create_content_post post c db).1.dbId = db.nextId ∧
    (create_content_post post c db).1.source_id = db.source_id ∧
    (create_content_post post c db).2.posts = db.posts ++ [(create_content_post post c db).1] ∧
    (create_content_post post c db).2.files = db.files ∧
    (create_content_post post c db).2.source_id = db.source_id := by
  have h := attach_tags_db_core post { db with nextId := db.nextId + 1 }
  unfold create_content_post attach_tags
  refine ⟨rfl, rfl, rfl, ?_, ?_, ?_⟩
  · dsimp only
    rw [h.2.2.1]
  · dsimp only
    exact h.2.2.2.1
  · dsimp only
    exact h.1

/-! ## Per-branch facts about the returned post object -/

theorem file_branch_fst (post : RemoteRecord) (content : ContentItem)
    (rp : RemotePostR) (preview : Bool) (db : DB) :
    (file_branch post content rp preview db).1 = rp := rfl

theorem gallery_branch_fst (content : ContentItem) (rp : RemotePostR)
    (preview : Bool) (db : DB) :
    (gallery_branch content rp preview db).1 = rp := rfl

theorem text_branch_fst (rp : RemotePostR) (db : DB) :
    (text_branch rp db).1 = { rp with type := PostType.set } := rfl

theorem blog_fold_segs (preview : Bool) (pid : Nat) (current : List FileR) :
    ∀ (ops : List BlogInsert) (acc : List BlogSeg × DB),
      (ops.foldl (blog_step preview pid current) acc).1 = acc.1 ++ blog_segs_of ops := by
  intro ops
  induction ops with
  | nil => intro acc; simp [blog_segs_of]
  | cons op rest ih =>
    intro acc
    rw [List.foldl_cons, ih]
    cases op with
    | str s => simp [blog_step, blog_segs_of, List.filterMap_cons]
    | obj fi =>
      cases fi with
      | none => simp [blog_step, blog_segs_of, List.filterMap_cons]
      | some img => simp [blog_step, blog_segs_of, List.filterMap_cons]

theorem blog_branch_fst (content : ContentItem) (rp : RemotePostR)
    (preview : Bool) (db : DB) :
    (blog_branch content rp preview db).1
      = { rp with comment := some (CommentVal.segs (blog_segs_of content.ops)),
                  type := PostType.blog } := by
  unfold blog_branch
  dsimp only
  rw [blog_fold_segs]
  simp

theorem content_dispatch_fst (post : RemoteRecord) (content : ContentItem)
    (rp : RemotePostR) (preview : Bool) (db : DB) (p : RemotePostR) (db2 : DB)
    (h : content_dispatch post content rp preview db = .ok (p, db2)) :
    p.dbId = rp.dbId ∧ p.source_id = rp.source_id ∧ p.original_id = rp.original_id := by
  unfold content_dispatch at h
  by_cases h1 : (content.category == "file") = true
  · rw [if_pos h1] at h
    simp only [Except.ok.injEq] at h
    have h' : (file_branch post content rp preview db).1 = p := by rw [h]
    rw [file_branch_fst] at h'
    subst h'
    exact ⟨rfl, rfl, rfl⟩
  · rw [if_neg h1] at h
    by_cases h2 : (content.category == "photo_gallery") = true
    · rw [if_pos h2] at h
      simp only [Except.ok.injEq] at h
      have h' : (gallery_branch content rp preview db).1 = p := by rw [h]
      rw [gallery_branch_fst] at h'
      subst h'
      exact ⟨rfl, rfl, rfl⟩
    · rw [if_neg h2] at h
      by_cases h3 : (content.category == "text") = true
      · rw [if_pos h3] at h
        simp only [Except.ok.injEq] at h
        have h' : (text_branch rp db).1 = p := by rw [h]
        rw [text_branch_fst] at h'
        subst h'
        exact ⟨rfl, rfl, rfl⟩
      · rw [if_neg h3] at h
        by_cases h4 : (content.category == "blog") = true
        · rw [if_pos h4] at h
          simp only [Except.ok.injEq] at h
          have h' : (blog_branch content rp preview db).1 = p := by rw [h]
          rw [blog_branch_fst] at h'
          subst h'
          exact ⟨rfl, rfl, rfl⟩
        · rw [if_neg h4] at h
          simp at h

theorem content_to_post_oid (post : RemoteRecord) (content : ContentItem)
    (preview : Bool) (db : DB) (p : RemotePostR) (db2 : DB)
    (h : content_to_post post content none preview db = .ok (p, db2)) :
    p.original_id = mk_content_id post.id content.id := by
  unfold content_to_post at h
  cases ho : one_or_none db (mk_content_id post.id content.id) with
  | error e => rw [ho] at h; simp at h
  | ok o =>
    cases o with
    | some rp =>
      rw [ho] at h
      have hd := content_dispatch_fst post content rp preview db p db2 h
      rw [hd.2.2]
      exact (one_or_none_some_spec db _ rp ho).2.2
    | none =>
      rw [ho] at h
      dsimp only at h
      have hd := content_dispatch_fst post content
        (create_content_post post content db).1 preview
        (create_content_post post content db).2 p db2 h
      rw [hd.2.2]
      exact (create_content_post_props post content db).1

theorem ensure_main_post_oid (post : RemoteRecord) (db : DB) (rp : RemotePostR)
    (db2 : DB) (h : ensure_main_post post db = .ok (rp, db2)) :
    rp.original_id = toString post.id := by
  unfold ensure_main_post at h
  cases ho : one_or_none db (toString post.id) with
  | error e => rw [ho] at h; simp at h
  | ok o =>
    cases o with
    | some q =>
      rw [ho] at h
      simp only [Except.ok.injEq, Prod.mk.injEq] at h
      rw [← h.1]
      exact (one_or_none_some_spec db _ q ho).2.2
    | none =>
      rw [ho] at h
      simp only [Except.ok.injEq] at h
      have h1 : (create_main_post post db).1 = rp := by rw [h]
      rw [← h1]
      rfl

theorem contents_loop_oids (post : RemoteRecord) (preview : Bool) (pid : Nat) :
    ∀ (cs : List ContentItem) (db : DB) (l : List RemotePostR) (db2 : DB),
      contents_loop post preview pid cs db = .ok (l, db2) →
      l.map (fun q => q.original_id)
        = (cs.filter (fun c => c.visible_status == "visible")).map
            (fun c => mk_content_id post.id c.id) := by
  intro cs
  induction cs with
  | nil =>
    intro db l db2 h
    simp only [contents_loop, Except.ok.injEq, Prod.mk.injEq] at h
    rw [← h.1]
    simp
  | cons c rest ih =>
    intro db l db2 h
    simp only [contents_loop] at h
    by_cases hv : (c.visible_status == "visible") = true
    · rw [if_pos hv] at h
      cases hc : content_to_post post c none preview db with
      | error e => rw [hc] at h; simp at h
      | ok s =>
        obtain ⟨cp, db1⟩ := s
        rw [hc] at h
        dsimp only at h
        cases hr : contents_loop post preview pid rest
            (if (pid, cp.dbId) ∈ db1.related then db1
             else { db1 with related := db1.related ++ [(pid, cp.dbId)] }) with
        | error e => rw [hr] at h; simp at h
        | ok s2 =>
          obtain ⟨restl, db3⟩ := s2
          rw [hr] at h
          simp only [Except.ok.injEq, Prod.mk.injEq] at h
          rw [← h.1]
          have hvf : (fun c => c.visible_status == "visible") c = true := hv
          rw [List.filter_cons, if_pos hvf]
          simp only [List.map_cons]
          rw [content_to_post_oid post c preview db cp db1 hc, ih _ _ _ hr]
    · rw [if_neg hv] at h
      have hvf : ¬(fun c => c.visible_status == "visible") c = true := hv
      rw [List.filter_cons, if_neg hvf]
      exact ih _ _ _ h

/-! ## C1: decomposition shape of a fresh normalization -/

/-- C1: normalizing a fetched record with no anchor post yields, on
success, exactly `1 + K` posts where `K` is the number of visible
sub-content items: the first is the collection post for the record (its
identity is the bare record id) and the rest are the sub-content posts
in `post_contents` order (their identities are
`"\x7brecord_id\x7d-\x7bcontent_id\x7d"`), skipping the non-visible
items. -/
theorem to_remote_posts_decomposition (post : RemoteRecord) (preview : Bool) (db : DB) :
    (to_remote_posts post none preview db).map (fun r => r.1.map (fun q => q.original_id))
      = (to_remote_posts post none preview db).map (fun _ =>
          toString post.id ::
            (post.post_contents.filter (fun c => c.visible_status == "visible")).map
              (fun c => mk_content_id post.id c.id)) ∧
    (to_remote_posts post none preview db).map (fun r => r.1.length)
      = (to_remote_posts post none preview db).map (fun _ =>
          1 + (post.post_contents.filter (fun c => c.visible_status == "visible")).length) := by
  unfold to_remote_posts
  dsimp only
  cases he : ensure_main_post post db with
  | error e => exact ⟨rfl, rfl⟩
  | ok s =>
    obtain ⟨rp, db1⟩ := s
    dsimp only
    cases ht : main_thumb_step post rp preview db1 with
    | error e => exact ⟨rfl, rfl⟩
    | ok db2 =>
      dsimp only
      cases hc : contents_loop post preview rp.dbId post.post_contents db2 with
      | error e => exact ⟨rfl, rfl⟩
      | ok s2 =>
        obtain ⟨rest, db3⟩ := s2
        dsimp only
        have hm := contents_loop_oids post preview rp.dbId post.post_contents db2 rest db3 hc
        have ho := ensure_main_post_oid post db rp db1 he
        have hlen : rest.length
            = (post.post_contents.filter (fun c => c.visible_status == "visible")).length := by
          have := congrArg List.length hm
          simpa using this
        constructor
        · simp only [Except.map, List.map_cons, ho, hm]
        · simp only [Except.map, List.length_cons, hlen, Nat.add_comm]

/-! ## C9: the unknown-category / unknown-blog-segment asymmetry -/

/-- C9: a content item whose category is none of file, photo_gallery,
text, blog makes `_content_to_post` raise (fatal for that record),
whereas a blog whose sections contain unrecognized inserts normalizes
without raising: the unknown inserts are logged and dropped and the
remaining segments are processed in input order. -/
theorem content_category_asymmetry (post : RemoteRecord) (c : ContentItem)
    (rp : RemotePostR) (rpIn : Option RemotePostR) (preview : Bool) (db : DB) :
    (c.category ≠ "file" → c.category ≠ "photo_gallery" → c.category ≠ "text" →
      c.category ≠ "blog" → (content_to_post post c rpIn preview db).isOk = false) ∧
    (c.category = "blog" →
      ∃ p db2, content_to_post post c (some rp) preview db = .ok (p, db2) ∧
        p.comment = some (CommentVal.segs (blog_segs_of c.ops)) ∧
        p.type = PostType.blog) := by
  constructor
  · intro h1 h2 h3 h4
    have hd : ∀ (rp2 : RemotePostR) (db3 : DB), content_dispatch post c rp2 preview db3
        = .error ("ValueError: unknown content category: " ++ c.category) := by
      intro rp2 db3
      unfold content_dispatch
      rw [if_neg (by simpa using h1), if_neg (by simpa using h2),
        if_neg (by simpa using h3), if_neg (by simpa using h4)]
    unfold content_to_post
    cases rpIn with
    | some rp2 => dsimp only; rw [hd]; rfl
    | none =>
      dsimp only
      cases ho : one_or_none db (mk_content_id post.id c.id) with
      | error e => rfl
      | ok o =>
        cases o with
        | some rp2 => dsimp only; rw [hd]; rfl
        | none => dsimp only; rw [hd]; rfl
  · intro hb
    refine ⟨(blog_branch c rp preview db).1, (blog_branch c rp preview db).2, ?_, ?_, ?_⟩
    · show content_dispatch post c rp preview db = _
      unfold content_dispatch
      rw [hb]
      rw [if_neg (by decide), if_neg (by decide), if_neg (by decide), if_pos (by decide)]
    · rw [blog_branch_fst]
    · rw [blog_branch_fst]

def c9_post : RemoteRecord :=
  ⟨1, 2, "n", none, none, "t", "general", none, [], [], none, none, none⟩

def c9_unknown : ContentItem :=
  ⟨3, "mystery", "visible", none, none, [], none, "", "", []⟩

def c9_blog : ContentItem :=
  ⟨4, "blog", "visible", none, none,
    [.str "a", .obj none, .obj (some ⟨6, "/d", "u"⟩)], none, "", "", []⟩

def c9_rp : RemotePostR :=
  ⟨0, 1, "1-4", "u", none, none, PostType.collection, "t", false, none, []⟩

def c9_db : DB := ⟨1, 1, [c9_rp], [], [], [], [], [], []⟩

theorem content_category_asymmetry_witness :
    (content_to_post c9_post c9_unknown none false c9_db).isOk = false ∧
    (∃ p db2, content_to_post c9_post c9_blog (some c9_rp) false c9_db = .ok (p, db2) ∧
      p.comment = some (CommentVal.segs (blog_segs_of c9_blog.ops)) ∧
      p.type = PostType.blog) :=
  ⟨(content_category_asymmetry c9_post c9_unknown c9_rp none false c9_db).1
      (by decide) (by decide) (by decide) (by decide),
    (content_category_asymmetry c9_post c9_blog c9_rp (some c9_rp) false c9_db).2 rfl⟩

/-! ## C5 groundwork: signature-level lemmas -/

theorem post_keys_of_sig {a b : DB} (h : post_sig a = post_sig b) :
    post_keys a = post_keys b := by
  have hk : ∀ db : DB, post_keys db = (post_sig db).map (fun x => x.2) := by
    intro db
    unfold post_keys post_sig
    rw [List.map_map]
    rfl
  rw [hk, hk, h]

theorem file_keys_of_sig {a b : DB} (h : file_sig a = file_sig b) :
    file_keys a = file_keys b := by
  have hk : ∀ db : DB, file_keys db = (file_sig db).map (fun x => x.2) := by
    intro db
    unfold file_keys file_sig
    rw [List.map_map]
    rfl
  rw [hk, hk, h]

theorem sig_ext_refl (a : DB) : sig_ext a a :=
  ⟨rfl, ⟨[], by simp⟩, ⟨[], by simp⟩⟩

theorem sig_ext_trans {a b c : DB} (h1 : sig_ext a b) (h2 : sig_ext b c) : sig_ext a c := by
  obtain ⟨hs1, ⟨e1, hp1⟩, ⟨f1, hf1⟩⟩ := h1
  obtain ⟨hs2, ⟨e2, hp2⟩, ⟨f2, hf2⟩⟩ := h2
  exact ⟨hs1.trans hs2, ⟨e2 ++ e1, by rw [hp1, hp2, List.append_assoc]⟩,
    ⟨f2 ++ f1, by rw [hf1, hf2, List.append_assoc]⟩⟩

theorem sig_ext_of_eq {a b : DB} (hs : a.source_id = b.source_id)
    (hp : post_sig a = post_sig b) (hf : file_sig a = file_sig b) : sig_ext a b :=
  ⟨hs, ⟨[], by simp [hp]⟩, ⟨[], by simp [hf]⟩⟩

theorem mem_post_sig_of_ext {a b : DB} (h : sig_ext a b) {x : Nat × Nat × String}
    (hx : x ∈ post_sig b) : x ∈ post_sig a := by
  obtain ⟨-, ⟨e, hp⟩, -⟩ := h
  rw [hp]
  exact List.mem_append_left _ hx

theorem mem_file_sig_of_ext {a b : DB} (h : sig_ext a b) {x : Nat × Nat × Nat}
    (hx : x ∈ file_sig b) : x ∈ file_sig a := by
  obtain ⟨-, -, ⟨e, hf⟩⟩ := h
  rw [hf]
  exact List.mem_append_left _ hx

theorem covers_content_mono {a b : DB} {post : RemoteRecord} {c : ContentItem}
    (hext : sig_ext a b) (h : covers_content b post c) : covers_content a post c := by
  obtain ⟨pid, hmem, h1, h2, h3⟩ := h
  refine ⟨pid, ?_, ?_, ?_, ?_⟩
  · rw [hext.1]
    exact mem_post_sig_of_ext hext hmem
  · intro hc
    obtain ⟨x, hx, he⟩ := h1 hc
    exact ⟨x, mem_file_sig_of_ext hext hx, he⟩
  · intro hc ph hph
    obtain ⟨x, hx, he⟩ := h2 hc ph hph
    exact ⟨x, mem_file_sig_of_ext hext hx, he⟩
  · intro hc img himg
    obtain ⟨x, hx, he⟩ := h3 hc img himg
    exact ⟨x, mem_file_sig_of_ext hext hx, he⟩

theorem covers_main_mono {a b : DB} {post : RemoteRecord}
    (hext : sig_ext a b) (h : covers_main b post) : covers_main a post := by
  obtain ⟨pid, hmem, h1⟩ := h
  refine ⟨pid, ?_, ?_⟩
  · rw [hext.1]
    exact mem_post_sig_of_ext hext hmem
  · intro ht
    obtain ⟨x, hx, he⟩ := h1 ht
    exact ⟨x, mem_file_sig_of_ext hext hx, he⟩

theorem covers_content_transport {a b : DB} {post : RemoteRecord} {c : ContentItem}
    (hs : a.source_id = b.source_id) (hp : post_sig a = post_sig b)
    (hf : file_sig a = file_sig b) (h : covers_content b post c) :
    covers_content a post c :=
  covers_content_mono (sig_ext_of_eq hs hp hf) h

theorem files_of_map_sig (db : DB) (pid : Nat) :
    (files_of db pid).map (fun f => (f.dbId, f.postDbId, f.remote_order))
      = (file_sig db).filter (fun x => x.2.1 == pid) := by
  unfold files_of file_sig
  have key : ∀ l : List FileR,
      (l.filter (fun f => f.postDbId == pid)).map
          (fun f => (f.dbId, f.postDbId, f.remote_order))
        = (l.map (fun f => (f.dbId, f.postDbId, f.remote_order))).filter
            (fun x => x.2.1 == pid) := by
    intro l
    induction l with
    | nil => rfl
    | cons f fs ih =>
      by_cases h : (f.postDbId == pid) = true
      · rw [List.filter_cons, if_pos h, List.map_cons, List.map_cons,
          List.filter_cons, if_pos h, ih]
      · rw [List.filter_cons, if_neg h, List.map_cons, List.filter_cons, if_neg h, ih]
  exact key db.files

theorem files_of_ne_nil {db : DB} {pid : Nat}
    (h : ∃ x ∈ file_sig db, x.2.1 = pid) : files_of db pid ≠ [] := by
  obtain ⟨x, hx, hpid⟩ := h
  intro hnil
  have hms := files_of_map_sig db pid
  rw [hnil] at hms
  have hxm : x ∈ (file_sig db).filter (fun y => y.2.1 == pid) :=
    List.mem_filter.mpr ⟨hx, by simp [hpid]⟩
  rw [← hms] at hxm
  cases hxm

theorem sig_of_mem_files_of {db : DB} {pid : Nat} {f : FileR} (h : f ∈ files_of db pid) :
    (f.dbId, f.postDbId, f.remote_order) ∈ file_sig db ∧ f.postDbId = pid := by
  unfold files_of at h
  have hm := List.mem_filter.mp h
  refine ⟨?_, by simpa using hm.2⟩
  exact List.mem_map_of_mem _ hm.1

theorem files_of_order_of_sig {db : DB} {pid order : Nat}
    (h : ∃ x ∈ file_sig db, x.2.1 = pid ∧ x.2.2 = order) :
    ∃ f ∈ files_of db pid, f.remote_order = order := by
  obtain ⟨x, hx, h1, h2⟩ := h
  obtain ⟨f, hf, hfx⟩ := List.mem_map.mp hx
  rw [← hfx] at h1 h2
  refine ⟨f, ?_, h2⟩
  unfold files_of
  refine List.mem_filter.mpr ⟨hf, ?_⟩
  have hp : f.postDbId = pid := h1
  simp [hp]

theorem dict_get_found {current : List FileR} {order : Nat}
    (h : ∃ f ∈ current, f.remote_order = order) :
    ∃ f, dict_get current order = some f := by
  unfold dict_get
  cases hf : current.reverse.find? (fun f => f.remote_order == order) with
  | some f => exact ⟨f, rfl⟩
  | none =>
    obtain ⟨f, hm, ho⟩ := h
    have := List.find?_eq_none.mp hf f (List.mem_reverse.mpr hm)
    simp [ho] at this

theorem dict_get_mem {current : List FileR} {order : Nat} {f : FileR}
    (h : dict_get current order = some f) :
    f ∈ current ∧ f.remote_order = order := by
  unfold dict_get at h
  refine ⟨List.mem_reverse.mp (List.mem_of_find?_eq_some h), ?_⟩
  have := List.find?_some h
  simpa using this

theorem map_if_proj {α β : Type} (l : List α) (c : α → Bool) (g : α → α) (proj : α → β)
    (hg : ∀ a, c a = true → proj (g a) = proj a) :
    (l.map (fun a => if c a then g a else a)).map proj = l.map proj := by
  induction l with
  | nil => rfl
  | cons x xs ih =>
    simp only [List.map_cons, ih]
    by_cases h : c x = true
    · rw [if_pos h, hg x h]
    · rw [if_neg h]

theorem post_sig_update_post (db : DB) (pid : Nat) (g : RemotePostR → RemotePostR)
    (hg : ∀ p, (g p).dbId = p.dbId ∧ (g p).source_id = p.source_id ∧
      (g p).original_id = p.original_id) :
    post_sig (update_post db pid g) = post_sig db := by
  unfold update_post post_sig
  exact map_if_proj db.posts _ g _ (fun p _ => by
    simp [(hg p).1, (hg p).2.1, (hg p).2.2])

theorem file_sig_import (db : DB) (fid : Nat) (o t : Option String) :
    file_sig (import_file db fid o t) = file_sig db := by
  unfold import_file update_file file_sig
  exact map_if_proj db.files _ _ _ (fun f _ => rfl)

theorem add_file_sig (db : DB) (pid order : Nat) (fn : Option String) :
    post_sig (add_file db pid order fn).2 = post_sig db ∧
    file_sig (add_file db pid order fn).2 = file_sig db ++ [(db.nextId, pid, order)] ∧
    (add_file db pid order fn).2.source_id = db.source_id := by
  refine ⟨rfl, ?_, rfl⟩
  unfold add_file file_sig
  simp

theorem two_dl_import_sig (no nt : Bool) (u1 u2 : String) (fid : Nat) (db : DB) :
    post_sig (two_dl_import no nt u1 u2 fid db) = post_sig db ∧
    file_sig (two_dl_import no nt u1 u2 fid db) = file_sig db ∧
    (two_dl_import no nt u1 u2 fid db).source_id = db.source_id := by
  cases no <;> cases nt <;>
    first
      | exact ⟨rfl, rfl, rfl⟩
      | exact ⟨rfl, file_sig_import _ _ _ _, rfl⟩

theorem file_dl_phase_sig (post : RemoteRecord) (c : ContentItem) (f : FileR)
    (preview : Bool) (db : DB) :
    post_sig (file_dl_phase post c f preview db) = post_sig db ∧
    file_sig (file_dl_phase post c f preview db) = file_sig db ∧
    (file_dl_phase post c f preview db).source_id = db.source_id := by
  obtain ⟨a1, a2, a3, a4, a5, a6, a7, a8, a9, a10, th, a12, a13⟩ := post
  obtain ⟨fd, fp, fo, fn, pr, tp⟩ := f
  cases th <;> cases pr <;> cases tp <;> cases preview <;>
    first
      | exact ⟨rfl, rfl, rfl⟩
      | exact ⟨rfl, file_sig_import _ _ _ _, rfl⟩

theorem main_thumb_dl_sig (post : RemoteRecord) (f : FileR) (preview : Bool)
    (db db2 : DB) (h : main_thumb_dl post f preview db = .ok db2) :
    post_sig db2 = post_sig db ∧ file_sig db2 = file_sig db ∧
    db2.source_id = db.source_id := by
  obtain ⟨a1, a2, a3, a4, a5, a6, a7, a8, a9, a10, th, a12, a13⟩ := post
  obtain ⟨fd, fp, fo, fn, pr, tp⟩ := f
  cases th <;> cases pr <;> cases tp <;> cases preview <;>
    first
      | exact Except.noConfusion h
      | (injection h with h
         subst h
         first
           | exact ⟨rfl, file_sig_import _ _ _ _, rfl⟩
           | exact ⟨rfl, rfl, rfl⟩)

theorem file_branch_db_ext (post : RemoteRecord) (c : ContentItem) (pid : Nat)
    (preview : Bool) (db : DB) :
    sig_ext (file_branch_db post c pid preview db) db ∧
    (∃ x ∈ file_sig (file_branch_db post c pid preview db), x.2.1 = pid) := by
  unfold file_branch_db
  cases hfs : files_of db pid with
  | nil =>
    dsimp only
    have ha := add_file_sig db pid 0 (some c.filename)
    have hp := file_dl_phase_sig post c (add_file db pid 0 (some c.filename)).1 preview
      (add_file db pid 0 (some c.filename)).2
    constructor
    · refine ⟨hp.2.2.trans ha.2.2, ⟨[], by rw [hp.1, ha.1]; simp⟩,
        ⟨[(db.nextId, pid, 0)], by rw [hp.2.1, ha.2.1]⟩⟩
    · refine ⟨(db.nextId, pid, 0), ?_, rfl⟩
      rw [hp.2.1, ha.2.1]
      simp
  | cons f rest =>
    dsimp only
    have hmem : f ∈ files_of db pid := by rw [hfs]; exact List.mem_cons_self f rest
    have hsig := sig_of_mem_files_of hmem
    have hp := file_dl_phase_sig post c f preview db
    constructor
    · exact sig_ext_of_eq hp.2.2 hp.1 hp.2.1
    · refine ⟨(f.dbId, f.postDbId, f.remote_order), ?_, hsig.2⟩
      rw [hp.2.1]
      exact hsig.1

theorem file_branch_db_eqsig (post : RemoteRecord) (c : ContentItem) (pid : Nat)
    (preview : Bool) (db : DB) (hcov : ∃ x ∈ file_sig db, x.2.1 = pid) :
    post_sig (file_branch_db post c pid preview db) = post_sig db ∧
    file_sig (file_branch_db post c pid preview db) = file_sig db ∧
    (file_branch_db post c pid preview db).source_id = db.source_id := by
  unfold file_branch_db
  cases hfs : files_of db pid with
  | nil => exact absurd hfs (files_of_ne_nil hcov)
  | cons f rest =>
    dsimp only
    exact file_dl_phase_sig post c f preview db

theorem gallery_step_ext (preview : Bool) (pid : Nat) (current : List FileR)
    (db : DB) (ph : Photo)
    (hcur : ∀ f ∈ current, f.postDbId = pid ∧
      (f.dbId, f.postDbId, f.remote_order) ∈ file_sig db) :
    sig_ext (gallery_step preview pid current db ph) db ∧
    (∃ x ∈ file_sig (gallery_step preview pid current db ph),
      x.2.1 = pid ∧ x.2.2 = ph.id) := by
  unfold gallery_step
  cases hg : dict_get current ph.id with
  | none =>
    dsimp only
    have ha := add_file_sig db pid ph.id none
    have ht := two_dl_import_sig (needs (add_file db pid ph.id none).1 preview).1
      (needs (add_file db pid ph.id none).1 preview).2 ph.url.original ph.url.medium
      (add_file db pid ph.id none).1.dbId (add_file db pid ph.id none).2
    constructor
    · exact ⟨ht.2.2.trans ha.2.2, ⟨[], by rw [ht.1, ha.1]; simp⟩,
        ⟨[(db.nextId, pid, ph.id)], by rw [ht.2.1, ha.2.1]⟩⟩
    · refine ⟨(db.nextId, pid, ph.id), ?_, rfl, rfl⟩
      rw [ht.2.1, ha.2.1]
      simp
  | some f =>
    dsimp only
    have hm := dict_get_mem hg
    have hcf := hcur f hm.1
    have ht := two_dl_import_sig (needs f preview).1 (needs f preview).2
      ph.url.original ph.url.medium f.dbId db
    constructor
    · exact sig_ext_of_eq ht.2.2 ht.1 ht.2.1
    · refine ⟨(f.dbId, f.postDbId, f.remote_order), ?_, hcf.1, hm.2⟩
      rw [ht.2.1]
      exact hcf.2

theorem gallery_step_eqsig (preview : Bool) (pid : Nat) (current : List FileR)
    (db : DB) (ph : Photo) (hcov : ∃ f ∈ current, f.remote_order = ph.id) :
    post_sig (gallery_step preview pid current db ph) = post_sig db ∧
    file_sig (gallery_step preview pid current db ph) = file_sig db ∧
    (gallery_step preview pid current db ph).source_id = db.source_id := by
  unfold gallery_step
  obtain ⟨f0, hf0⟩ := dict_get_found hcov
  rw [hf0]
  dsimp only
  exact two_dl_import_sig _ _ _ _ _ _

theorem gallery_fold_ext (preview : Bool) (pid : Nat) (current : List FileR) :
    ∀ (photos : List Photo) (db : DB),
      (∀ f ∈ current, f.postDbId = pid ∧
        (f.dbId, f.postDbId, f.remote_order) ∈ file_sig db) →
      sig_ext (photos.foldl (gallery_step preview pid current) db) db ∧
      ∀ ph ∈ photos,
        ∃ x ∈ file_sig (photos.foldl (gallery_step preview pid current) db),
          x.2.1 = pid ∧ x.2.2 = ph.id := by
  intro photos
  induction photos with
  | nil =>
    intro db hcur
    exact ⟨sig_ext_refl db, by simp⟩
  | cons ph rest ih =>
    intro db hcur
    rw [List.foldl_cons]
    have hstep := gallery_step_ext preview pid current db ph hcur
    have hcur2 : ∀ f ∈ current, f.postDbId = pid ∧
        (f.dbId, f.postDbId, f.remote_order)
          ∈ file_sig (gallery_step preview pid current db ph) := by
      intro f hf
      exact ⟨(hcur f hf).1, mem_file_sig_of_ext hstep.1 (hcur f hf).2⟩
    have hrest := ih (gallery_step preview pid current db ph) hcur2
    refine ⟨sig_ext_trans hrest.1 hstep.1, ?_⟩
    intro q hq
    rcases List.mem_cons.mp hq with hq | hq
    · obtain ⟨x, hx, hxx⟩ := hstep.2
      exact ⟨x, mem_file_sig_of_ext hrest.1 hx, hxx.1, by rw [hq]; exact hxx.2⟩
    · exact hrest.2 q hq

theorem gallery_fold_eqsig (preview : Bool) (pid : Nat) (current : List FileR) :
    ∀ (photos : List Photo) (db : DB),
      (∀ ph ∈ photos, ∃ f ∈ current, f.remote_order = ph.id) →
      post_sig (photos.foldl (gallery_step preview pid current) db) = post_sig db ∧
      file_sig (photos.foldl (gallery_step preview pid current) db) = file_sig db ∧
      (photos.foldl (gallery_step preview pid current) db).source_id = db.source_id := by
  intro photos
  induction photos with
  | nil => intro db _; exact ⟨rfl, rfl, rfl⟩
  | cons ph rest ih =>
    intro db hcov
    rw [List.foldl_cons]
    have hstep := gallery_step_eqsig preview pid current db ph
      (hcov ph (List.mem_cons_self ph rest))
    have hrest := ih (gallery_step preview pid current db ph)
      (fun q hq => hcov q (List.mem_cons_of_mem ph hq))
    exact ⟨hrest.1.trans hstep.1, hrest.2.1.trans hstep.2.1, hrest.2.2.trans hstep.2.2⟩

theorem blog_img_db_ext (preview : Bool) (pid : Nat) (current : List FileR)
    (img : FantiaImage) (db : DB)
    (hcur : ∀ f ∈ current, f.postDbId = pid ∧
      (f.dbId, f.postDbId, f.remote_order) ∈ file_sig db) :
    sig_ext (blog_img_db preview pid current img db) db ∧
    (∃ x ∈ file_sig (blog_img_db preview pid current img db),
      x.2.1 = pid ∧ x.2.2 = img.id) := by
  unfold blog_img_db
  cases hg : dict_get current img.id with
  | none =>
    dsimp only
    have ha := add_file_sig db pid img.id none
    have ht := two_dl_import_sig (needs (add_file db pid img.id none).1 preview).1
      (needs (add_file db pid img.id none).1 preview).2
      (file_download_url img.original_url) img.url
      (add_file db pid img.id none).1.dbId (add_file db pid img.id none).2
    constructor
    · exact ⟨ht.2.2.trans ha.2.2, ⟨[], by rw [ht.1, ha.1]; simp⟩,
        ⟨[(db.nextId, pid, img.id)], by rw [ht.2.1, ha.2.1]⟩⟩
    · refine ⟨(db.nextId, pid, img.id), ?_, rfl, rfl⟩
      rw [ht.2.1, ha.2.1]
      simp
  | some f =>
    dsimp only
    have hm := dict_get_mem hg
    have hcf := hcur f hm.1
    have ht := two_dl_import_sig (needs f preview).1 (needs f preview).2
      (file_download_url img.original_url) img.url f.dbId db
    constructor
    · exact sig_ext_of_eq ht.2.2 ht.1 ht.2.1
    · refine ⟨(f.dbId, f.postDbId, f.remote_order), ?_, hcf.1, hm.2⟩
      rw [ht.2.1]
      exact hcf.2

theorem blog_img_db_eqsig (preview : Bool) (pid : Nat) (current : List FileR)
    (img : FantiaImage) (db : DB) (hcov : ∃ f ∈ current, f.remote_order = img.id) :
    post_sig (blog_img_db preview pid current img db) = post_sig db ∧
    file_sig (blog_img_db preview pid current img db) = file_sig db ∧
    (blog_img_db preview pid current img db).source_id = db.source_id := by
  unfold blog_img_db
  obtain ⟨f0, hf0⟩ := dict_get_found hcov
  rw [hf0]
  dsimp only
  exact two_dl_import_sig _ _ _ _ _ _

theorem blog_fold_ext (preview : Bool) (pid : Nat) (current : List FileR) :
    ∀ (ops : List BlogInsert) (acc : List BlogSeg × DB),
      (∀ f ∈ current, f.postDbId = pid ∧
        (f.dbId, f.postDbId, f.remote_order) ∈ file_sig acc.2) →
      sig_ext (ops.foldl (blog_step preview pid current) acc).2 acc.2 ∧
      ∀ img : FantiaImage, BlogInsert.obj (some img) ∈ ops →
        ∃ x ∈ file_sig (ops.foldl (blog_step preview pid current) acc).2,
          x.2.1 = pid ∧ x.2.2 = img.id := by
  intro ops
  induction ops with
  | nil =>
    intro acc hcur
    exact ⟨sig_ext_refl acc.2, by simp⟩
  | cons op rest ih =>
    intro acc hcur
    rw [List.foldl_cons]
    cases op with
    | str s =>
      have hrest := ih (acc.1 ++ [BlogSeg.text s], acc.2) hcur
      refine ⟨hrest.1, ?_⟩
      intro img himg
      rcases List.mem_cons.mp himg with himg | himg
      · cases himg
      · exact hrest.2 img himg
    | obj fi =>
      cases fi with
      | none =>
        have hcur2 : ∀ f ∈ current, f.postDbId = pid ∧
            (f.dbId, f.postDbId, f.remote_order) ∈ file_sig
              { acc.2 with warnings := acc.2.warnings ++ ["unknown blog insert"] } := hcur
        have hrest := ih (acc.1, { acc.2 with
          warnings := acc.2.warnings ++ ["unknown blog insert"] }) hcur2
        refine ⟨sig_ext_trans hrest.1 (sig_ext_of_eq rfl rfl rfl), ?_⟩
        intro img himg
        rcases List.mem_cons.mp himg with himg | himg
        · cases himg
        · exact hrest.2 img himg
      | some img0 =>
        have hstep := blog_img_db_ext preview pid current img0 acc.2 hcur
        have hcur2 : ∀ f ∈ current, f.postDbId = pid ∧
            (f.dbId, f.postDbId, f.remote_order)
              ∈ file_sig (blog_img_db preview pid current img0 acc.2) := by
          intro f hf
          exact ⟨(hcur f hf).1, mem_file_sig_of_ext hstep.1 (hcur f hf).2⟩
        have hrest := ih (acc.1 ++ [BlogSeg.file img0.id],
          blog_img_db preview pid current img0 acc.2) hcur2
        refine ⟨sig_ext_trans hrest.1 hstep.1, ?_⟩
        intro img himg
        rcases List.mem_cons.mp himg with himg | himg
        · obtain ⟨x, hx, hxx⟩ := hstep.2
          have himg0 : img = img0 := by
            injection himg with h1
            injection h1
          exact ⟨x, mem_file_sig_of_ext hrest.1 hx, hxx.1, by rw [himg0]; exact hxx.2⟩
        · exact hrest.2 img himg

theorem blog_fold_eqsig (preview : Bool) (pid : Nat) (current : List FileR) :
    ∀ (ops : List BlogInsert) (acc : List BlogSeg × DB),
      (∀ img : FantiaImage, BlogInsert.obj (some img) ∈ ops →
        ∃ f ∈ current, f.remote_order = img.id) →
      post_sig (ops.foldl (blog_step preview pid current) acc).2 = post_sig acc.2 ∧
      file_sig (ops.foldl (blog_step preview pid current) acc).2 = file_sig acc.2 ∧
      (ops.foldl (blog_step preview pid current) acc).2.source_id = acc.2.source_id := by
  intro ops
  induction ops with
  | nil => intro acc _; exact ⟨rfl, rfl, rfl⟩
  | cons op rest ih =>
    intro acc hcov
    rw [List.foldl_cons]
    cases op with
    | str s =>
      exact ih (acc.1 ++ [BlogSeg.text s], acc.2)
        (fun img himg => hcov img (List.mem_cons_of_mem _ himg))
    | obj fi =>
      cases fi with
      | none =>
        exact ih (acc.1, { acc.2 with
          warnings := acc.2.warnings ++ ["unknown blog insert"] })
          (fun img himg => hcov img (List.mem_cons_of_mem _ himg))
      | some img0 =>
        have hstep := blog_img_db_eqsig preview pid current img0 acc.2
          (hcov img0 (List.mem_cons_self _ _))
        have hrest := ih (acc.1 ++ [BlogSeg.file img0.id],
          blog_img_db preview pid current img0 acc.2)
          (fun img himg => hcov img (List.mem_cons_of_mem _ himg))
        exact ⟨hrest.1.trans hstep.1, hrest.2.1.trans hstep.2.1,
          hrest.2.2.trans hstep.2.2⟩

theorem one_or_none_unique (db : DB) (oid : String) (p : RemotePostR)
    (h : one_or_none db oid = .ok (some p)) :
    ∀ q ∈ db.posts, q.source_id = db.source_id → q.original_id = oid → q = p := by
  intro q hq hq1 hq2
  unfold one_or_none at h
  cases hf : db.posts.filter (fun r => r.source_id == db.source_id && r.original_id == oid) with
  | nil => rw [hf] at h; simp at h
  | cons a l =>
    cases l with
    | nil =>
      rw [hf] at h
      simp only [Except.ok.injEq, Option.some.injEq] at h
      have hqf : q ∈ db.posts.filter
          (fun r => r.source_id == db.source_id && r.original_id == oid) :=
        List.mem_filter.mpr ⟨hq, by simp [hq1, hq2]⟩
      rw [hf] at hqf
      rw [List.mem_singleton.mp hqf, h]
    | cons b l2 => rw [hf] at h; simp at h

theorem one_or_none_not_none_of_mem (db : DB) (oid : String)
    (h : ∃ pid, (pid, db.source_id, oid) ∈ post_sig db) :
    one_or_none db oid ≠ .ok none := by
  obtain ⟨pid, hmem⟩ := h
  obtain ⟨q, hq, hqe⟩ := List.mem_map.mp hmem
  have h1 : q.source_id = db.source_id := congrArg (fun x => x.2.1) hqe
  have h2 : q.original_id = oid := congrArg (fun x => x.2.2) hqe
  intro hno
  unfold one_or_none at hno
  cases hf : db.posts.filter (fun r => r.source_id == db.source_id && r.original_id == oid) with
  | nil =>
    have hqf : q ∈ db.posts.filter
        (fun r => r.source_id == db.source_id && r.original_id == oid) :=
      List.mem_filter.mpr ⟨hq, by simp [h1, h2]⟩
    rw [hf] at hqf
    cases hqf
  | cons a l =>
    rw [hf] at hno
    cases l with
    | nil => simp at hno
    | cons b l2 => simp at hno

theorem one_or_none_dbid (db : DB) (oid : String) (p : RemotePostR)
    (h : one_or_none db oid = .ok (some p)) (pid : Nat)
    (hmem : (pid, db.source_id, oid) ∈ post_sig db) : p.dbId = pid := by
  obtain ⟨q, hq, hqe⟩ := List.mem_map.mp hmem
  have h1 : q.source_id = db.source_id := congrArg (fun x => x.2.1) hqe
  have h2 : q.original_id = oid := congrArg (fun x => x.2.2) hqe
  have h3 : q.dbId = pid := congrArg (fun x => x.1) hqe
  rw [← h3, one_or_none_unique db oid p h q hq h1 h2]

theorem gallery_branch_snd (content : ContentItem) (rp : RemotePostR)
    (preview : Bool) (db : DB) :
    (gallery_branch content rp preview db).2
      = content.post_content_photos.foldl
          (gallery_step preview rp.dbId (files_of db rp.dbId)) db := rfl

theorem blog_branch_snd (content : ContentItem) (rp : RemotePostR)
    (preview : Bool) (db : DB) :
    (blog_branch content rp preview db).2
      = update_post (content.ops.foldl
            (blog_step preview rp.dbId (files_of db rp.dbId)) ([], db)).2 rp.dbId
          (fun p => { p with
            comment := some (CommentVal.segs (content.ops.foldl
              (blog_step preview rp.dbId (files_of db rp.dbId)) ([], db)).1),
            type := PostType.blog }) := rfl

theorem content_dispatch_ext (post : RemoteRecord) (c : ContentItem)
    (rp : RemotePostR) (preview : Bool) (db : DB) (p : RemotePostR) (db2 : DB)
    (h : content_dispatch post c rp preview db = .ok (p, db2)) :
    sig_ext db2 db ∧ content_files_cov db2 rp.dbId c := by
  have hcur : ∀ f ∈ files_of db rp.dbId, f.postDbId = rp.dbId ∧
      (f.dbId, f.postDbId, f.remote_order) ∈ file_sig db := by
    intro f hf
    exact ⟨(sig_of_mem_files_of hf).2, (sig_of_mem_files_of hf).1⟩
  unfold content_dispatch at h
  by_cases h1 : (c.category == "file") = true
  · rw [if_pos h1] at h
    simp only [Except.ok.injEq] at h
    have hdb : file_branch_db post c rp.dbId preview db = db2 := congrArg Prod.snd h
    have hcat : c.category = "file" := by simpa using h1
    have hx := file_branch_db_ext post c rp.dbId preview db
    rw [hdb] at hx
    refine ⟨hx.1, fun _ => hx.2, fun hc => ?_, fun hc => ?_⟩
    · rw [hcat] at hc; exact absurd hc (by decide)
    · rw [hcat] at hc; exact absurd hc (by decide)
  · rw [if_neg h1] at h
    by_cases h2 : (c.category == "photo_gallery") = true
    · rw [if_pos h2] at h
      simp only [Except.ok.injEq] at h
      have hdb : (gallery_branch c rp preview db).2 = db2 := congrArg Prod.snd h
      have hcat : c.category = "photo_gallery" := by simpa using h2
      rw [gallery_branch_snd] at hdb
      have hx := gallery_fold_ext preview rp.dbId (files_of db rp.dbId)
        c.post_content_photos db hcur
      rw [hdb] at hx
      refine ⟨hx.1, fun hc => ?_, fun _ => hx.2, fun hc => ?_⟩
      · rw [hcat] at hc; exact absurd hc (by decide)
      · rw [hcat] at hc; exact absurd hc (by decide)
    · rw [if_neg h2] at h
      by_cases h3 : (c.category == "text") = true
      · rw [if_pos h3] at h
        simp only [Except.ok.injEq] at h
        have hdb : update_post db rp.dbId (fun p => { p with type := PostType.set }) = db2 :=
          congrArg Prod.snd h
        have hcat : c.category = "text" := by simpa using h3
        have hps := post_sig_update_post db rp.dbId
          (fun p => { p with type := PostType.set }) (fun p => ⟨rfl, rfl, rfl⟩)
        refine ⟨?_, fun hc => ?_, fun hc => ?_, fun hc => ?_⟩
        · rw [← hdb]
          exact sig_ext_of_eq rfl hps rfl
        · rw [hcat] at hc; exact absurd hc (by decide)
        · rw [hcat] at hc; exact absurd hc (by decide)
        · rw [hcat] at hc; exact absurd hc (by decide)
      · rw [if_neg h3] at h
        by_cases h4 : (c.category == "blog") = true
        · rw [if_pos h4] at h
          simp only [Except.ok.injEq] at h
          have hdb : (blog_branch c rp preview db).2 = db2 := congrArg Prod.snd h
          have hcat : c.category = "blog" := by simpa using h4
          rw [blog_branch_snd] at hdb
          have hx := blog_fold_ext preview rp.dbId (files_of db rp.dbId)
            c.ops ([], db) hcur
          have hps := post_sig_update_post
            (c.ops.foldl (blog_step preview rp.dbId (files_of db rp.dbId)) ([], db)).2
            rp.dbId _
            (fun p => (⟨rfl, rfl, rfl⟩ :
              (({ p with
                  comment := some (CommentVal.segs (c.ops.foldl
                    (blog_step preview rp.dbId (files_of db rp.dbId)) ([], db)).1),
                  type := PostType.blog } : RemotePostR)).dbId = p.dbId ∧ _ ∧ _))
          refine ⟨?_, fun hc => ?_, fun hc => ?_, fun _ => ?_⟩
          · rw [← hdb]
            refine sig_ext_trans (sig_ext_of_eq ?_ hps ?_) hx.1 <;> rfl
          · rw [hcat] at hc; exact absurd hc (by decide)
          · rw [hcat] at hc; exact absurd hc (by decide)
          · intro img himg
            obtain ⟨x, hxm, hxx⟩ := hx.2 img himg
            refine ⟨x, ?_, hxx⟩
            rw [← hdb]
            exact hxm
        · rw [if_neg h4] at h
          simp at h

theorem create_main_post_props (post : RemoteRecord) (db : DB) :
    (create_main_post post db).1.original_id = toString post.id ∧
    (create_main_post post db).1.dbId = db.nextId ∧
    (create_main_post post db).1.source_id = db.source_id ∧
    (create_main_post post db).2.posts = db.posts ++ [(create_main_post post db).1] ∧
    (create_main_post post db).2.files = db.files ∧
    (create_main_post post db).2.source_id = db.source_id := by
  have h := attach_tags_db_core post { db with nextId := db.nextId + 1 }
  unfold create_main_post attach_tags
  refine ⟨rfl, rfl, rfl, ?_, ?_, ?_⟩
  · dsimp only
    rw [h.2.2.1]
  · dsimp only
    exact h.2.2.2.1
  · dsimp only
    exact h.1

theorem content_dispatch_eqsig (post : RemoteRecord) (c : ContentItem)
    (rp : RemotePostR) (preview : Bool) (db : DB) (p : RemotePostR) (db2 : DB)
    (hcov : content_files_cov db rp.dbId c)
    (h : content_dispatch post c rp preview db = .ok (p, db2)) :
    post_sig db2 = post_sig db ∧ file_sig db2 = file_sig db ∧
    db2.source_id = db.source_id := by
  unfold content_dispatch at h
  by_cases h1 : (c.category == "file") = true
  · rw [if_pos h1] at h
    simp only [Except.ok.injEq] at h
    have hdb : file_branch_db post c rp.dbId preview db = db2 := congrArg Prod.snd h
    have hcat : c.category = "file" := by simpa using h1
    rw [← hdb]
    exact file_branch_db_eqsig post c rp.dbId preview db (hcov.1 hcat)
  · rw [if_neg h1] at h
    by_cases h2 : (c.category == "photo_gallery") = true
    · rw [if_pos h2] at h
      simp only [Except.ok.injEq] at h
      have hdb : (gallery_branch c rp preview db).2 = db2 := congrArg Prod.snd h
      have hcat : c.category = "photo_gallery" := by simpa using h2
      rw [gallery_branch_snd] at hdb
      rw [← hdb]
      refine gallery_fold_eqsig preview rp.dbId (files_of db rp.dbId)
        c.post_content_photos db ?_
      intro ph hph
      exact files_of_order_of_sig (hcov.2.1 hcat ph hph)
    · rw [if_neg h2] at h
      by_cases h3 : (c.category == "text") = true
      · rw [if_pos h3] at h
        simp only [Except.ok.injEq] at h
        have hdb : update_post db rp.dbId (fun p => { p with type := PostType.set }) = db2 :=
          congrArg Prod.snd h
        rw [← hdb]
        exact ⟨post_sig_update_post db rp.dbId _ (fun p => ⟨rfl, rfl, rfl⟩), rfl, rfl⟩
      · rw [if_neg h3] at h
        by_cases h4 : (c.category == "blog") = true
        · rw [if_pos h4] at h
          simp only [Except.ok.injEq] at h
          have hdb : (blog_branch c rp preview db).2 = db2 := congrArg Prod.snd h
          have hcat : c.category = "blog" := by simpa using h4
          rw [blog_branch_snd] at hdb
          have hfold := blog_fold_eqsig preview rp.dbId (files_of db rp.dbId)
            c.ops ([], db) (fun img himg =>
              files_of_order_of_sig (hcov.2.2 hcat img himg))
          have hps := post_sig_update_post
            (c.ops.foldl (blog_step preview rp.dbId (files_of db rp.dbId)) ([], db)).2
            rp.dbId
            (fun p => { p with
              comment := some (CommentVal.segs (c.ops.foldl
                (blog_step preview rp.dbId (files_of db rp.dbId)) ([], db)).1),
              type := PostType.blog })
            (fun p => ⟨rfl, rfl, rfl⟩)
          rw [← hdb]
          exact ⟨hps.trans hfold.1, hfold.2.1, hfold.2.2⟩
        · rw [if_neg h4] at h
          simp at h

theorem content_to_post_ext (post : RemoteRecord) (c : ContentItem) (preview : Bool)
    (db : DB) (p : RemotePostR) (db2 : DB)
    (h : content_to_post post c none preview db = .ok (p, db2)) :
    sig_ext db2 db ∧ covers_content db2 post c := by
  unfold content_to_post at h
  cases ho : one_or_none db (mk_content_id post.id c.id) with
  | error e => rw [ho] at h; simp at h
  | ok o =>
    cases o with
    | some rp =>
      rw [ho] at h
      have hd := content_dispatch_ext post c rp preview db p db2 h
      have hs := one_or_none_some_spec db _ rp ho
      refine ⟨hd.1, rp.dbId, ?_, hd.2⟩
      have hmem : (rp.dbId, db.source_id, mk_content_id post.id c.id) ∈ post_sig db := by
        have hm : (rp.dbId, rp.source_id, rp.original_id) ∈ post_sig db :=
          List.mem_map_of_mem _ hs.1
        rw [hs.2.1, hs.2.2] at hm
        exact hm
      rw [hd.1.1]
      exact mem_post_sig_of_ext hd.1 hmem
    | none =>
      rw [ho] at h
      dsimp only at h
      have hd := content_dispatch_ext post c (create_content_post post c db).1 preview
        (create_content_post post c db).2 p db2 h
      have hc := create_content_post_props post c db
      have hext2 : sig_ext (create_content_post post c db).2 db := by
        refine ⟨hc.2.2.2.2.2,
          ⟨[((create_content_post post c db).1.dbId, db.source_id,
            mk_content_id post.id c.id)], ?_⟩, ⟨[], ?_⟩⟩
        · unfold post_sig
          rw [hc.2.2.2.1, List.map_append]
          simp [hc.1, hc.2.2.1]
        · unfold file_sig
          rw [hc.2.2.2.2.1]
          simp
      have hmem : ((create_content_post post c db).1.dbId, db.source_id,
          mk_content_id post.id c.id) ∈ post_sig (create_content_post post c db).2 := by
        unfold post_sig
        rw [hc.2.2.2.1, List.map_append]
        apply List.mem_append_right
        simp [hc.1, hc.2.2.1]
      refine ⟨sig_ext_trans hd.1 hext2, (create_content_post post c db).1.dbId, ?_, hd.2⟩
      have hsrc : db2.source_id = db.source_id := hd.1.1.trans hc.2.2.2.2.2
      rw [hsrc]
      exact mem_post_sig_of_ext hd.1 hmem

theorem content_to_post_eqsig (post : RemoteRecord) (c : ContentItem) (preview : Bool)
    (db : DB) (p : RemotePostR) (db2 : DB)
    (hcov : covers_content db post c)
    (h : content_to_post post c none preview db = .ok (p, db2)) :
    post_sig db2 = post_sig db ∧ file_sig db2 = file_sig db ∧
    db2.source_id = db.source_id := by
  obtain ⟨pid, hmem, hfcov⟩ := hcov
  unfold content_to_post at h
  cases ho : one_or_none db (mk_content_id post.id c.id) with
  | error e => rw [ho] at h; simp at h
  | ok o =>
    cases o with
    | none => exact absurd ho (one_or_none_not_none_of_mem db _ ⟨pid, hmem⟩)
    | some rp =>
      rw [ho] at h
      have hid : rp.dbId = pid := one_or_none_dbid db _ rp ho pid hmem
      rw [← hid] at hfcov
      exact content_dispatch_eqsig post c rp preview db p db2 hfcov h

theorem ensure_main_post_ext (post : RemoteRecord) (db : DB) (rp : RemotePostR)
    (db2 : DB) (h : ensure_main_post post db = .ok (rp, db2)) :
    sig_ext db2 db ∧ (rp.dbId, db2.source_id, toString post.id) ∈ post_sig db2 := by
  unfold ensure_main_post at h
  cases ho : one_or_none db (toString post.id) with
  | error e => rw [ho] at h; simp at h
  | ok o =>
    cases o with
    | some q =>
      rw [ho] at h
      simp only [Except.ok.injEq, Prod.mk.injEq] at h
      obtain ⟨h1, h2⟩ := h
      have hs := one_or_none_some_spec db _ q ho
      subst h2
      refine ⟨sig_ext_refl db, ?_⟩
      have hm : (q.dbId, q.source_id, q.original_id) ∈ post_sig db :=
        List.mem_map_of_mem _ hs.1
      rw [hs.2.1, hs.2.2] at hm
      rw [← h1]
      exact hm
    | none =>
      rw [ho] at h
      simp only [Except.ok.injEq] at h
      have h1 : (create_main_post post db).1 = rp := by rw [h]
      have h2 : (create_main_post post db).2 = db2 := by rw [h]
      have hc := create_main_post_props post db
      constructor
      · rw [← h2]
        refine ⟨hc.2.2.2.2.2,
          ⟨[((create_main_post post db).1.dbId, db.source_id, toString post.id)], ?_⟩,
          ⟨[], ?_⟩⟩
        · unfold post_sig
          rw [hc.2.2.2.1, List.map_append]
          simp [hc.1, hc.2.2.1]
        · unfold file_sig
          rw [hc.2.2.2.2.1]
          simp
      · rw [← h1, ← h2]
        have hsrc : (create_main_post post db).2.source_id = db.source_id := hc.2.2.2.2.2
        rw [hsrc]
        unfold post_sig
        rw [hc.2.2.2.1, List.map_append]
        apply List.mem_append_right
        simp [hc.1, hc.2.2.1]

theorem ensure_main_post_found (post : RemoteRecord) (db : DB) (rp : RemotePostR)
    (db2 : DB) (h : ensure_main_post post db = .ok (rp, db2))
    (pid : Nat) (hmem : (pid, db.source_id, toString post.id) ∈ post_sig db) :
    db2 = db ∧ rp.dbId = pid := by
  unfold ensure_main_post at h
  cases ho : one_or_none db (toString post.id) with
  | error e => rw [ho] at h; simp at h
  | ok o =>
    cases o with
    | none => exact absurd ho (one_or_none_not_none_of_mem db _ ⟨pid, hmem⟩)
    | some q =>
      rw [ho] at h
      simp only [Except.ok.injEq, Prod.mk.injEq] at h
      refine ⟨h.2.symm, ?_⟩
      rw [← h.1]
      exact one_or_none_dbid db _ q ho pid hmem

theorem main_thumb_step_ext (post : RemoteRecord) (rp : RemotePostR) (preview : Bool)
    (db db2 : DB) (h : main_thumb_step post rp preview db = .ok db2) :
    sig_ext db2 db ∧
    (post.thumb.isSome = true → ∃ x ∈ file_sig db2, x.2.1 = rp.dbId) := by
  unfold main_thumb_step at h
  dsimp only at h
  cases hfs : files_of db rp.dbId with
  | nil =>
    rw [hfs] at h
    cases ht : post.thumb with
    | none =>
      rw [ht] at h
      dsimp only at h
      injection h with h
      subst h
      refine ⟨sig_ext_refl db, ?_⟩
      intro hsome
      simp at hsome
    | some th =>
      rw [ht] at h
      dsimp only at h
      have hdl := main_thumb_dl_sig post (add_file db rp.dbId 0 none).1 preview
        (add_file db rp.dbId 0 none).2 db2 h
      have ha := add_file_sig db rp.dbId 0 none
      refine ⟨⟨hdl.2.2.trans ha.2.2, ⟨[], by rw [hdl.1, ha.1]; simp⟩,
        ⟨[(db.nextId, rp.dbId, 0)], by rw [hdl.2.1, ha.2.1]⟩⟩, ?_⟩
      intro _
      refine ⟨(db.nextId, rp.dbId, 0), ?_, rfl⟩
      rw [hdl.2.1, ha.2.1]
      simp
  | cons f rest =>
    rw [hfs] at h
    dsimp only at h
    have hdl := main_thumb_dl_sig post f preview db db2 h
    have hmemf : f ∈ files_of db rp.dbId := by
      rw [hfs]; exact List.mem_cons_self f rest
    have hsig := sig_of_mem_files_of hmemf
    refine ⟨sig_ext_of_eq hdl.2.2 hdl.1 hdl.2.1, ?_⟩
    intro _
    refine ⟨(f.dbId, f.postDbId, f.remote_order), ?_, hsig.2⟩
    rw [hdl.2.1]
    exact hsig.1

theorem main_thumb_step_eqsig (post : RemoteRecord) (rp : RemotePostR) (preview : Bool)
    (db db2 : DB)
    (hcov : post.thumb.isSome = true → ∃ x ∈ file_sig db, x.2.1 = rp.dbId)
    (h : main_thumb_step post rp preview db = .ok db2) :
    post_sig db2 = post_sig db ∧ file_sig db2 = file_sig db ∧
    db2.source_id = db.source_id := by
  unfold main_thumb_step at h
  dsimp only at h
  cases hfs : files_of db rp.dbId with
  | nil =>
    rw [hfs] at h
    cases ht : post.thumb with
    | none =>
      rw [ht] at h
      dsimp only at h
      injection h with h
      subst h
      exact ⟨rfl, rfl, rfl⟩
    | some th =>
      exact absurd hfs (files_of_ne_nil (hcov (by rw [ht]; rfl)))
  | cons f rest =>
    rw [hfs] at h
    dsimp only at h
    exact main_thumb_dl_sig post f preview db db2 h

theorem contents_loop_ext (post : RemoteRecord) (preview : Bool) (pid : Nat) :
    ∀ (cs : List ContentItem) (db : DB) (l : List RemotePostR) (db2 : DB),
      contents_loop post preview pid cs db = .ok (l, db2) →
      sig_ext db2 db ∧
      ∀ c ∈ cs, (c.visible_status == "visible") = true → covers_content db2 post c := by
  intro cs
  induction cs with
  | nil =>
    intro db l db2 h
    simp only [contents_loop, Except.ok.injEq, Prod.mk.injEq] at h
    rw [← h.2]
    exact ⟨sig_ext_refl db, by simp⟩
  | cons c rest ih =>
    intro db l db2 h
    simp only [contents_loop] at h
    by_cases hv : (c.visible_status == "visible") = true
    · rw [if_pos hv] at h
      cases hc : content_to_post post c none preview db with
      | error e => rw [hc] at h; simp at h
      | ok s =>
        obtain ⟨cp, db1⟩ := s
        rw [hc] at h
        dsimp only at h
        cases hr : contents_loop post preview pid rest
            (if (pid, cp.dbId) ∈ db1.related then db1
             else { db1 with related := db1.related ++ [(pid, cp.dbId)] }) with
        | error e => rw [hr] at h; simp at h
        | ok s2 =>
          obtain ⟨restl, db3⟩ := s2
          rw [hr] at h
          simp only [Except.ok.injEq, Prod.mk.injEq] at h
          have hcp := content_to_post_ext post c preview db cp db1 hc
          have hrel : sig_ext (if (pid, cp.dbId) ∈ db1.related then db1
              else { db1 with related := db1.related ++ [(pid, cp.dbId)] }) db1 := by
            split
            · exact sig_ext_refl _
            · exact sig_ext_of_eq rfl rfl rfl
          have hrest := ih _ restl db3 hr
          rw [← h.2]
          constructor
          · exact sig_ext_trans hrest.1 (sig_ext_trans hrel hcp.1)
          · intro q hq hqv
            rcases List.mem_cons.mp hq with hq | hq
            · rw [hq]
              exact covers_content_mono hrest.1 (covers_content_mono hrel hcp.2)
            · exact hrest.2 q hq hqv
    · rw [if_neg hv] at h
      have hrest := ih db l db2 h
      refine ⟨hrest.1, ?_⟩
      intro q hq hqv
      rcases List.mem_cons.mp hq with hq | hq
      · rw [hq] at hqv
        exact absurd hqv hv
      · exact hrest.2 q hq hqv

theorem contents_loop_eqsig (post : RemoteRecord) (preview : Bool) (pid : Nat) :
    ∀ (cs : List ContentItem) (db : DB) (l : List RemotePostR) (db2 : DB),
      (∀ c ∈ cs, (c.visible_status == "visible") = true → covers_content db post c) →
      contents_loop post preview pid cs db = .ok (l, db2) →
      post_sig db2 = post_sig db ∧ file_sig db2 = file_sig db ∧
      db2.source_id = db.source_id := by
  intro cs
  induction cs with
  | nil =>
    intro db l db2 _ h
    simp only [contents_loop, Except.ok.injEq, Prod.mk.injEq] at h
    rw [← h.2]
    exact ⟨rfl, rfl, rfl⟩
  | cons c rest ih =>
    intro db l db2 hcov h
    simp only [contents_loop] at h
    by_cases hv : (c.visible_status == "visible") = true
    · rw [if_pos hv] at h
      cases hc : content_to_post post c none preview db with
      | error e => rw [hc] at h; simp at h
      | ok s =>
        obtain ⟨cp, db1⟩ := s
        rw [hc] at h
        dsimp only at h
        cases hr : contents_loop post preview pid rest
            (if (pid, cp.dbId) ∈ db1.related then db1
             else { db1 with related := db1.related ++ [(pid, cp.dbId)] }) with
        | error e => rw [hr] at h; simp at h
        | ok s2 =>
          obtain ⟨restl, db3⟩ := s2
          rw [hr] at h
          simp only [Except.ok.injEq, Prod.mk.injEq] at h
          have hcp := content_to_post_eqsig post c preview db cp db1
            (hcov c (List.mem_cons_self c rest) hv) hc
          have hrelp : post_sig (if (pid, cp.dbId) ∈ db1.related then db1
              else { db1 with related := db1.related ++ [(pid, cp.dbId)] }) = post_sig db1 := by
            split <;> rfl
          have hrelf : file_sig (if (pid, cp.dbId) ∈ db1.related then db1
              else { db1 with related := db1.related ++ [(pid, cp.dbId)] }) = file_sig db1 := by
            split <;> rfl
          have hrels : (if (pid, cp.dbId) ∈ db1.related then db1
              else { db1 with related := db1.related ++ [(pid, cp.dbId)] }).source_id
                = db1.source_id := by
            split <;> rfl
          have hrest := ih _ restl db3 (by
            intro q hq hqv
            refine covers_content_transport ?_ ?_ ?_ (hcov q (List.mem_cons_of_mem c hq) hqv)
            · rw [hrels, hcp.2.2]
            · rw [hrelp, hcp.1]
            · rw [hrelf, hcp.2.1]) hr
          rw [← h.2]
          exact ⟨(hrest.1.trans hrelp).trans hcp.1,
            (hrest.2.1.trans hrelf).trans hcp.2.1,
            (hrest.2.2.trans hrels).trans hcp.2.2⟩
    · rw [if_neg hv] at h
      exact ih db l db2 (fun q hq hqv => hcov q (List.mem_cons_of_mem c hq) hqv) h

theorem to_remote_posts_covers (post : RemoteRecord) (preview : Bool) (db : DB)
    (ps : List RemotePostR) (db1 : DB)
    (h : to_remote_posts post none preview db = .ok (ps, db1)) :
    covers_main db1 post ∧
    ∀ c ∈ post.post_contents, (c.visible_status == "visible") = true →
      covers_content db1 post c := by
  unfold to_remote_posts at h
  dsimp only at h
  cases he : ensure_main_post post db with
  | error e => rw [he] at h; simp at h
  | ok s =>
    obtain ⟨rp, dbE⟩ := s
    rw [he] at h
    dsimp only at h
    cases ht : main_thumb_step post rp preview dbE with
    | error e => rw [ht] at h; simp at h
    | ok dbT =>
      rw [ht] at h
      dsimp only at h
      cases hc : contents_loop post preview rp.dbId post.post_contents dbT with
      | error e => rw [hc] at h; simp at h
      | ok s2 =>
        obtain ⟨rest, dbL⟩ := s2
        rw [hc] at h
        simp only [Except.ok.injEq, Prod.mk.injEq] at h
        have hE := ensure_main_post_ext post db rp dbE he
        have hT := main_thumb_step_ext post rp preview dbE dbT ht
        have hL := contents_loop_ext post preview rp.dbId post.post_contents dbT rest dbL hc
        rw [← h.2]
        constructor
        · refine ⟨rp.dbId, ?_, ?_⟩
          · have hsrc : dbL.source_id = dbE.source_id := hL.1.1.trans hT.1.1
            rw [hsrc]
            exact mem_post_sig_of_ext hL.1 (mem_post_sig_of_ext hT.1 hE.2)
          · intro hsome
            obtain ⟨x, hx, hxx⟩ := hT.2 hsome
            exact ⟨x, mem_file_sig_of_ext hL.1 hx, hxx⟩
        · intro c hcmem hcv
          exact hL.2 c hcmem hcv

/-! ## C5: idempotence of normalization -/

/-- C5: normalizing the same fetched record a second time, against the
store the first normalization produced, creates no second post row for
an already-existing `(source_id, original_id)` pair and no second file
placeholder for an already-existing `(post, remote_order)` pair: the
post-key and file-key tables are unchanged by the second run. -/
theorem normalize_idempotent (post : RemoteRecord) (preview : Bool) (db : DB)
    (ps1 : List RemotePostR) (db1 : DB) (ps2 : List RemotePostR) (db2 : DB)
    (h1 : to_remote_posts post none preview db = .ok (ps1, db1))
    (h2 : to_remote_posts post none preview db1 = .ok (ps2, db2)) :
    post_keys db2 = post_keys db1 ∧ file_keys db2 = file_keys db1 := by
  obtain ⟨hmain, hconts⟩ := to_remote_posts_covers post preview db ps1 db1 h1
  obtain ⟨pidM, hmemM, hthumbM⟩ := hmain
  unfold to_remote_posts at h2
  dsimp only at h2
  cases he : ensure_main_post post db1 with
  | error e => rw [he] at h2; simp at h2
  | ok s =>
    obtain ⟨rp, dbE⟩ := s
    rw [he] at h2
    dsimp only at h2
    obtain ⟨hEdb, hEid⟩ := ensure_main_post_found post db1 rp dbE he pidM hmemM
    have hEdb2 : db1 = dbE := hEdb.symm
    subst hEdb2
    cases ht : main_thumb_step post rp preview db1 with
    | error e => rw [ht] at h2; simp at h2
    | ok dbT =>
      rw [ht] at h2
      dsimp only at h2
      have hT := main_thumb_step_eqsig post rp preview db1 dbT
        (by rw [hEid]; exact hthumbM) ht
      cases hc : contents_loop post preview rp.dbId post.post_contents dbT with
      | error e => rw [hc] at h2; simp at h2
      | ok s2 =>
        obtain ⟨rest, dbL⟩ := s2
        rw [hc] at h2
        simp only [Except.ok.injEq, Prod.mk.injEq] at h2
        have hL := contents_loop_eqsig post preview rp.dbId post.post_contents dbT
          rest dbL (by
            intro c hcm hcv
            exact covers_content_transport hT.2.2 hT.1 hT.2.1 (hconts c hcm hcv)) hc
        rw [← h2.2]
        constructor
        · exact post_keys_of_sig (hL.1.trans hT.1)
        · exact file_keys_of_sig (hL.2.1.trans hT.2.1)

def c5_post : RemoteRecord :=
  ⟨123, 9, "creator", some "T", none, "t0", "general", none, [],
    [⟨45, "text", "visible", some "sub", none, [], none, "", "", []⟩],
    none, none, none⟩

def c5_db0 : DB := ⟨1, 0, [], [], [], [], [], [], []⟩

def c5_rp0 : RemotePostR :=
  ⟨0, 1, "123", "https://fantia.jp/posts/123", some "T", none, PostType.collection,
    "t0", false, none, [(TagCategory.artist, "9")]⟩

def c5_rp1 : RemotePostR :=
  ⟨1, 1, "123-45", "https://fantia.jp/posts/123", some "sub", none, PostType.set,
    "t0", false, some none, [(TagCategory.artist, "9")]⟩

def c5_db1 : DB :=
  ⟨1, 2, [c5_rp0, c5_rp1], [], [⟨TagCategory.artist, "9", some "creator"⟩],
    [(0, 1)], [], [], []⟩

theorem normalize_idempotent_witness :
    to_remote_posts c5_post none false c5_db0 = .ok ([c5_rp0, c5_rp1], c5_db1) ∧
    to_remote_posts c5_post none false c5_db1 = .ok ([c5_rp0, c5_rp1], c5_db1) ∧
    (post_keys c5_db1 = post_keys c5_db1 ∧ file_keys c5_db1 = file_keys c5_db1) := by
  have h1 : to_remote_posts c5_post none false c5_db0 = .ok ([c5_rp0, c5_rp1], c5_db1) := by
    rfl
  have h2 : to_remote_posts c5_post none false c5_db1 = .ok ([c5_rp0, c5_rp1], c5_db1) := by
    rfl
  exact ⟨h1, h2,
    normalize_idempotent c5_post false c5_db0 [c5_rp0, c5_rp1] c5_db1
      [c5_rp0, c5_rp1] c5_db1 h1 h2⟩
